import Mathlib

/-!
# A verification model of the `Events` class (event dispatch core)

This file gives a shallow embedding of the `Events` class of the repository
(the reentrant-safe asynchronous publish/subscribe primitive) and proves,
or refutes, the frozen claims about it.

Modelling conventions, mapped to the TypeScript source:

* An event key (`EventType`) is a `String`.
* A handler is identified by a `Nat` (`HandlerId`): JavaScript compares
  handlers by reference identity, which the `Nat` identity models; duplicate
  registrations of the same identity are allowed, as in the source.
* An argument list (`...args: any[]`) is a `List Nat` (`Args`); only identity
  of the argument list matters for the claims.
* The body of a handler is modelled by a `Behavior`: when invoked with an
  argument list, a handler performs a finite sequence of bus operations
  (`on`, `once`, `removeListener`, or a nested `emit`) and then either
  resolves or rejects with a `Reason`.  A rejection of an awaited nested
  `emit` propagates out of the handler, aborting its remaining actions,
  exactly as an uncaught exception propagates through `await`.
* The registries `onHandlers` / `onceHandlers` (JS objects mapping keys to
  arrays) are modelled as total functions `Key → List HandlerId`, with an
  absent key represented by `[]`.  This is observationally faithful: an empty
  array is truthy in JS, so `if (this.onHandlers[event])` followed by a loop
  behaves identically for "absent" and "present but empty", and `delete`
  coincides with setting the key to `[]` for every operation of the class.
* The host is single-threaded and cooperative, and `emit` awaits each handler
  to completion before invoking the next, so one emission is a sequential
  computation; `emit` is modelled as a fuel-indexed function (the fuel bounds
  the nesting depth of reentrant emissions; every claim is conditioned upon the
  run returning a value, i.e. upon enough fuel).
* The result of an emission is the final bus state, the trace of handler
  invocations `(handler, args)` in invocation-start order (nested emissions
  inline their invocations at the point they occur), and `none` for a
  resolved promise or `some r` for a promise rejected with reason `r`.
-/

namespace Events

/-- Event keys (`EventType` in the source). -/
abbrev Key := String

/-- Handler identity (JS function reference identity). -/
abbrev HandlerId := Nat

/-- Argument list passed to `emit` and to each handler. -/
abbrev Args := List Nat

/-- A rejection reason (the value a handler's promise rejects with). -/
abbrev Reason := Nat

/-- One bus operation a handler body may perform during its invocation. -/
inductive Action where
  | onA (k : Key) (h : HandlerId)
  | onceA (k : Key) (h : HandlerId)
  | removeA (h : HandlerId)
  | emitA (k : Key) (args : Args)
deriving DecidableEq, Repr

/-- The behavior of every handler identity: the bus operations it performs
when invoked with a given argument list, and whether it then rejects
(`some reason`) or resolves (`none`). -/
structure Behavior where
  acts : HandlerId → Args → List Action
  rejectsWith : HandlerId → Args → Option Reason

/-- The private state of the `Events` class:
registries, the three deferral queues, and the dispatch flag. -/
structure St where
  onHandlers : Key → List HandlerId
  onceHandlers : Key → List HandlerId
  toRegisterOn : List (Key × HandlerId)
  toRegisterOnce : List (Key × HandlerId)
  toRemove : List HandlerId
  isEmitting : Bool

/-- Point update of a registry (JS `obj[k] = v`, with absent keys ≡ `[]`). -/
def setList (f : Key → List HandlerId) (k : Key) (v : List HandlerId) :
    Key → List HandlerId :=
  fun k' => if k' = k then v else f k'

/-- `Events.on`: register a persistent handler; if called while dispatching,
the registration is queued in `toRegisterOn` instead. -/
def «on» (k : Key) (h : HandlerId) (s : St) : St :=
  if s.isEmitting then
    { s with toRegisterOn := s.toRegisterOn ++ [(k, h)] }
  else
    { s with onHandlers := setList s.onHandlers k (s.onHandlers k ++ [h]) }

/-- `Events.once`: register a one-shot handler.  NOTE: the source pushes the
deferred registration onto `toRegisterOn` (not `toRegisterOnce`), so a
one-shot handler registered while dispatching is flushed as a persistent
handler; the model reproduces this faithfully. -/
def once (k : Key) (h : HandlerId) (s : St) : St :=
  if s.isEmitting then
    { s with toRegisterOn := s.toRegisterOn ++ [(k, h)] }
  else
    { s with onceHandlers := setList s.onceHandlers k (s.onceHandlers k ++ [h]) }

/-- `Events.removeListener`: remove a handler identity from every list of both
registries; if called while dispatching, the removal is queued in `toRemove`. -/
def removeListener (h : HandlerId) (s : St) : St :=
  if s.isEmitting then
    { s with toRemove := s.toRemove ++ [h] }
  else
    { s with
      onHandlers := fun k => (s.onHandlers k).filter (fun x => x != h),
      onceHandlers := fun k => (s.onceHandlers k).filter (fun x => x != h) }

/-- First flush loop of `Events.emit`: replay the queued `on` registrations in
queue order by calling `on` (the dispatch flag is false, so they apply
directly), then clear the queue. -/
def flushOn (s : St) : St :=
  { s.toRegisterOn.foldl (fun st p => «on» p.1 p.2 st) s with toRegisterOn := [] }

/-- Second flush loop of `Events.emit`: replay the queued `once` registrations
in queue order by calling `once`, then clear the queue.  (The source never
pushes onto `toRegisterOnce`, so in reachable states this loop is vacuous.) -/
def flushOnce (s : St) : St :=
  { s.toRegisterOnce.foldl (fun st p => once p.1 p.2 st) s with toRegisterOnce := [] }

/-- Third flush loop of `Events.emit`: replay the queued removals in queue
order by calling `removeListener`, then clear the queue. -/
def flushRemove (s : St) : St :=
  { s.toRemove.foldl (fun st h => removeListener h st) s with toRemove := [] }

/-- The deferred-mutation flush at the end of `Events.emit`: the three replay
loops of the source, in source order (persistent additions, then one-shot
additions, then removals). -/
def flush (s : St) : St := flushRemove (flushOnce (flushOn s))

/-- Trace of handler invocations, in invocation-start order. -/
abbrev Trace := List (HandlerId × Args)

/-- Result of running an emission (or part of one): `none` means the fuel for
nested emissions ran out; otherwise the final state, the invocation trace, and
the promise outcome (`none` = resolved, `some r` = rejected with reason `r`). -/
abbrev Res := Option (St × Trace × Option Reason)

/-- Sequentially await `step` for each handler of a captured list, stopping at
the first rejection (later handlers are not invoked), threading the state and
concatenating the traces.  This is the `for (const handler of list) await
handler(...)` loop of `Events.emit`; the list is the array captured when the
loop starts, which is never mutated in place during a dispatch. -/
def runSeq (step : HandlerId → St → Res) : List HandlerId → St → Res
  | [], s => some (s, [], none)
  | h :: hs, s =>
    match step h s with
    | none => none
    | some (s', t, some r) => some (s', t, some r)
    | some (s', t, none) =>
      match runSeq step hs s' with
      | none => none
      | some (s'', t', res) => some (s'', t ++ t', res)

/-- Run the list of bus operations a handler body performs.  A nested `emit`
is run through `recEmit` (the emission function at the remaining fuel); if the
awaited nested emission rejects, the rejection propagates immediately and the
remaining actions are not performed. -/
def runActs (recEmit : Key → Args → St → Res) : List Action → St → Res
  | [], s => some (s, [], none)
  | Action.onA k h :: rest, s => runActs recEmit rest («on» k h s)
  | Action.onceA k h :: rest, s => runActs recEmit rest (once k h s)
  | Action.removeA h :: rest, s => runActs recEmit rest (removeListener h s)
  | Action.emitA k a :: rest, s =>
    match recEmit k a s with
    | none => none
    | some (s', t, some r) => some (s', t, some r)
    | some (s', t, none) =>
      match runActs recEmit rest s' with
      | none => none
      | some (s'', t', res) => some (s'', t ++ t', res)

/-- Invoke one handler: record the invocation, run its body's bus operations,
then settle its promise (a rejection propagated out of a nested `emit` takes
precedence; otherwise the handler's own outcome applies). -/
def runHandler (recEmit : Key → Args → St → Res) (beh : Behavior)
    (h : HandlerId) (args : Args) (s : St) : Res :=
  match runActs recEmit (beh.acts h args) s with
  | none => none
  | some (s', t, some r) => some (s', (h, args) :: t, some r)
  | some (s', t, none) => some (s', (h, args) :: t, beh.rejectsWith h args)

/-- One unfolding of `Events.emit`, faithful to the source line by line:
record `wasEmitting`, set the dispatch flag, await the persistent handlers for
the key (captured list), then the one-shot handlers (captured list), delete
the one-shot list for the key, restore the flag, and flush the deferral queues
when (and only when) the restored flag is false.  A rejection anywhere exits
early: the flag is not restored and nothing is deleted or flushed after the
point of rejection. -/
def emitStep (recEmit : Key → Args → St → Res) (beh : Behavior)
    (k : Key) (args : Args) (s : St) : Res :=
  let wasEmitting := s.isEmitting
  let s1 : St := { s with isEmitting := true }
  match runSeq (fun h st => runHandler recEmit beh h args st) (s1.onHandlers k) s1 with
  | none => none
  | some (s2, t1, some r) => some (s2, t1, some r)
  | some (s2, t1, none) =>
    match runSeq (fun h st => runHandler recEmit beh h args st) (s2.onceHandlers k) s2 with
    | none => none
    | some (s3, t2, some r) => some (s3, t1 ++ t2, some r)
    | some (s3, t2, none) =>
      let s4 : St := { s3 with onceHandlers := setList s3.onceHandlers k [] }
      let s5 : St := { s4 with isEmitting := wasEmitting }
      if wasEmitting then some (s5, t1 ++ t2, none)
      else some (flush s5, t1 ++ t2, none)

/-- `Events.emit`, with fuel bounding the depth of reentrant emissions. -/
def emit (beh : Behavior) : Nat → Key → Args → St → Res
  | 0 => fun _ _ _ => none
  | fuel + 1 => emitStep (emit beh fuel) beh

/-- `Events.waitFor`: registers, through `once`, a fresh resolver handler `w`
(a handler whose body performs no bus operations and never rejects — it only
resolves the returned promise with the received argument list). -/
def waitFor (w : HandlerId) (k : Key) (s : St) : St := once k w s

/-- The settlement of the promise returned by `waitFor`: it resolves with the
argument list of the first invocation of the resolver handler (and has no
rejection pathway; `none` means it is still pending). -/
def waitForResult (w : HandlerId) (t : Trace) : Option Args :=
  (t.find? (fun e => e.1 == w)).map (fun e => e.2)

/-- The resolver handler created by `waitFor`: no bus operations, never
rejects. -/
def Resolver (beh : Behavior) (w : HandlerId) : Prop :=
  (∀ a, beh.acts w a = []) ∧ (∀ a, beh.rejectsWith w a = none)

/-- State projection of an emission (for chaining concrete scenarios). -/
def emitSt (beh : Behavior) (n : Nat) (k : Key) (a : Args) (s : St) : Option St :=
  (emit beh n k a s).map (fun x => x.1)

/-- Trace projection of an emission. -/
def emitTr (beh : Behavior) (n : Nat) (k : Key) (a : Args) (s : St) : Option Trace :=
  (emit beh n k a s).map (fun x => x.2.1)

/-- Promise-outcome projection of an emission. -/
def emitRes (beh : Behavior) (n : Nat) (k : Key) (a : Args) (s : St) :
    Option (Option Reason) :=
  (emit beh n k a s).map (fun x => x.2.2)

/-- Handler identity `g` is registered nowhere (in no list of either
registry). -/
def NotReg (g : HandlerId) (s : St) : Prop :=
  ∀ k, g ∉ s.onHandlers k ∧ g ∉ s.onceHandlers k

/-- What any amount of activity performed while the dispatch flag is raised
can do to the state: the flag stays raised, the persistent registry is
untouched, one-shot lists can only be deleted (by nested emissions of their
key), the `toRegisterOn` and `toRemove` queues only grow at the tail, and the
`toRegisterOnce` queue is untouched (the source never pushes onto it).  In
particular the deferral queues are never flushed. -/
def Frame (s s' : St) : Prop :=
  s'.isEmitting = true ∧
  s'.onHandlers = s.onHandlers ∧
  (∀ k, s'.onceHandlers k = s.onceHandlers k ∨ s'.onceHandlers k = []) ∧
  (∃ l, s'.toRegisterOn = s.toRegisterOn ++ l) ∧
  s'.toRegisterOnce = s.toRegisterOnce ∧
  (∃ l, s'.toRemove = s.toRemove ++ l)

/-- An emission function satisfies the dispatch-time frame property. -/
def EmitFrame (recEmit : Key → Args → St → Res) : Prop :=
  ∀ k a s s' t r, s.isEmitting = true → recEmit k a s = some (s', t, r) →
    Frame s s'

/-- An emission function never invokes a handler registered nowhere. -/
def EmitNoInv (recEmit : Key → Args → St → Res) : Prop :=
  ∀ k a s s' t r g, NotReg g s → recEmit k a s = some (s', t, r) →
    ∀ a', (g, a') ∉ t

/-- Every rejection of an emission originates from some invoked handler that
rejected with that very reason. -/
def EmitOrigin (beh : Behavior) (recEmit : Key → Args → St → Res) : Prop :=
  ∀ k a s s' t r, recEmit k a s = some (s', t, some r) →
    ∃ g a', (g, a') ∈ t ∧ beh.rejectsWith g a' = some r

/-- No handler body ever requests the removal of handler `g`. -/
def ActsNoRemove (beh : Behavior) (g : HandlerId) : Prop :=
  ∀ h a, Action.removeA g ∉ beh.acts h a

/-- An emission function run while dispatching never enqueues `g` for
removal, provided no handler body requests it. -/
def EmitRemFree (recEmit : Key → Args → St → Res) (g : HandlerId) : Prop :=
  ∀ k a s s' t r, s.isEmitting = true → recEmit k a s = some (s', t, r) →
    g ∈ s'.toRemove → g ∈ s.toRemove

/-- No handler body ever issues a nested `emit`. -/
def NoEmitActs (beh : Behavior) : Prop :=
  ∀ h a k as, Action.emitA k as ∉ beh.acts h a

/-- One public API call performed against the bus (the four operations of the class;
`waitFor` is `once` of a resolver handler). -/
inductive ApiStep (beh : Behavior) : St → St → Prop
  | onStep (k : Key) (h : HandlerId) (s : St) : ApiStep beh s («on» k h s)
  | onceStep (k : Key) (h : HandlerId) (s : St) : ApiStep beh s (once k h s)
  | removeStep (h : HandlerId) (s : St) : ApiStep beh s (removeListener h s)
  | emitApi (n : Nat) (k : Key) (a : Args) (s s' : St) (t : Trace)
      (r : Option Reason) : emit beh n k a s = some (s', t, r) →
      ApiStep beh s s'

/-- The empty bus: a freshly constructed `Events` instance. -/
def emptySt : St where
  onHandlers := fun _ => []
  onceHandlers := fun _ => []
  toRegisterOn := []
  toRegisterOnce := []
  toRemove := []
  isEmitting := false

/-- Behavior with no bus operations and no rejections. -/
def behNil : Behavior where
  acts := fun _ _ => []
  rejectsWith := fun _ _ => none

/-- Dispatch-time bookkeeping preservation: the registries, the dispatch flag
and the (never-written) one-shot deferral queue are untouched. -/
def Keeps (s s' : St) : Prop :=
  s'.onHandlers = s.onHandlers ∧ s'.onceHandlers = s.onceHandlers ∧
  s'.isEmitting = s.isEmitting ∧ s'.toRegisterOnce = s.toRegisterOnce

/-- Scenario: handler `1`, when invoked with `[5]`, re-emits `"x"` with `[7]`
(a nested emission of the same key); no handler ever rejects. -/
def behA : Behavior where
  acts := fun h a => if h = 1 ∧ a = [5] then [Action.emitA "x" [7]] else []
  rejectsWith := fun _ _ => none

/-- Scenario state: one-shot handlers `[0, 1]` registered for `"x"`. -/
def sOnceX : St :=
  { emptySt with onceHandlers := fun k => if k = "x" then [0, 1] else [] }

/-- Scenario state: persistent handlers `[0, 1]` and one-shot handler `[2]`
registered for `"x"`. -/
def sAB : St :=
  { emptySt with
    onHandlers := fun k => if k = "x" then [0, 1] else []
    onceHandlers := fun k => if k = "x" then [2] else [] }

/-- Scenario: handler `5`, when invoked with `[0]`, registers handler `7`
through `once("x", ...)` while the dispatch flag is raised. -/
def behB : Behavior where
  acts := fun h a => if h = 5 ∧ a = [0] then [Action.onceA "x" 7] else []
  rejectsWith := fun _ _ => none

/-- Scenario state: persistent handler `[5]` registered for `"x"`. -/
def sB : St :=
  { emptySt with onHandlers := fun k => if k = "x" then [5] else [] }

/-- Scenario: handler `3`, when invoked with `[0]`, registers handler `9`
through `on("y", ...)`; handler `4` rejects with reason `7` on args `[0]`. -/
def behC : Behavior where
  acts := fun h a => if h = 3 ∧ a = [0] then [Action.onA "y" 9] else []
  rejectsWith := fun h a => if h = 4 ∧ a = [0] then some 7 else none

/-- Scenario state: persistent handlers `[3, 4]` registered for `"x"`. -/
def sC : St :=
  { emptySt with onHandlers := fun k => if k = "x" then [3, 4] else [] }

/-- Scenario: no bus operations; handler `0` always rejects with reason `1`. -/
def behR : Behavior where
  acts := fun _ _ => []
  rejectsWith := fun h _ => if h = 0 then some 1 else none

/-- Scenario state: one-shot handler `[0]` registered for `"x"`. -/
def sR : St :=
  { emptySt with onceHandlers := fun k => if k = "x" then [0] else [] }

/-- Scenario: no bus operations; handler `1` always rejects with reason `9`. -/
def behC5 : Behavior where
  acts := fun _ _ => []
  rejectsWith := fun h _ => if h = 1 then some 9 else none

/-- Scenario state: persistent handler `[0]` and one-shot handlers `[1, 2]`
registered for `"x"`. -/
def sC5 : St :=
  { emptySt with
    onHandlers := fun k => if k = "x" then [0] else []
    onceHandlers := fun k => if k = "x" then [1, 2] else [] }

/-- Scenario state: empty bus with the dispatch flag raised. -/
def sEm : St := { emptySt with isEmitting := true }

/-- Scenario state: a pending deferred registration of handler `7` for `"x"`. -/
def sQ : St := { emptySt with toRegisterOn := [("x", 7)] }

/-- Scenario state: persistent handler `[3]` registered for `"x"`. -/
def sOn3 : St :=
  { emptySt with onHandlers := fun k => if k = "x" then [3] else [] }

/-- Scenario state: persistent handler `[3]` registered for `"x"`, with
handler `3` pending removal in the `toRemove` queue. -/
def sRem : St :=
  { emptySt with
    onHandlers := fun k => if k = "x" then [3] else []
    toRemove := [3] }

end Events

namespace Events

lemma setList_self (f : Key → List HandlerId) (k : Key) (v : List HandlerId) :
    setList f k v k = v := by simp [setList]

lemma setList_ne (f : Key → List HandlerId) (k k' : Key) (v : List HandlerId)
    (h : k' ≠ k) : setList f k v k' = f k' := by simp [setList, h]

lemma emit_zero (beh : Behavior) (k : Key) (a : Args) (s : St) :
    emit beh 0 k a s = none := rfl

lemma emit_succ (beh : Behavior) (n : Nat) (k : Key) (a : Args) (s : St) :
    emit beh (n + 1) k a s = emitStep (emit beh n) beh k a s := rfl

lemma on_emitting (k : Key) (g : HandlerId) (s : St) (hs : s.isEmitting = true) :
    «on» k g s = { s with toRegisterOn := s.toRegisterOn ++ [(k, g)] } := by
  simp [«on», hs]

lemma once_emitting (k : Key) (g : HandlerId) (s : St) (hs : s.isEmitting = true) :
    once k g s = { s with toRegisterOn := s.toRegisterOn ++ [(k, g)] } := by
  simp [once, hs]

lemma remove_emitting (g : HandlerId) (s : St) (hs : s.isEmitting = true) :
    removeListener g s = { s with toRemove := s.toRemove ++ [g] } := by
  simp [removeListener, hs]

lemma on_quiet (k : Key) (g : HandlerId) (s : St) (hs : s.isEmitting = false) :
    «on» k g s =
      { s with onHandlers := setList s.onHandlers k (s.onHandlers k ++ [g]) } := by
  simp [«on», hs]

lemma once_quiet (k : Key) (g : HandlerId) (s : St) (hs : s.isEmitting = false) :
    once k g s =
      { s with onceHandlers := setList s.onceHandlers k (s.onceHandlers k ++ [g]) } := by
  simp [once, hs]

lemma remove_quiet (g : HandlerId) (s : St) (hs : s.isEmitting = false) :
    removeListener g s =
      { s with
        onHandlers := fun k => (s.onHandlers k).filter (fun x => x != g),
        onceHandlers := fun k => (s.onceHandlers k).filter (fun x => x != g) } := by
  simp [removeListener, hs]

lemma on_isEmitting (k : Key) (g : HandlerId) (s : St) :
    («on» k g s).isEmitting = s.isEmitting := by
  by_cases hs : s.isEmitting <;> simp [«on», hs]

lemma once_isEmitting (k : Key) (g : HandlerId) (s : St) :
    (once k g s).isEmitting = s.isEmitting := by
  by_cases hs : s.isEmitting <;> simp [once, hs]

lemma remove_isEmitting (g : HandlerId) (s : St) :
    (removeListener g s).isEmitting = s.isEmitting := by
  by_cases hs : s.isEmitting <;> simp [removeListener, hs]

lemma frame_refl (s : St) (hs : s.isEmitting = true) : Frame s s :=
  ⟨hs, rfl, fun _ => Or.inl rfl, ⟨[], by simp⟩, rfl, ⟨[], by simp⟩⟩

lemma frame_trans {s s' s'' : St} (h1 : Frame s s') (h2 : Frame s' s'') :
    Frame s s'' := by
  obtain ⟨e1, o1, c1, ⟨l1, q1⟩, g1, ⟨m1, r1⟩⟩ := h1
  obtain ⟨e2, o2, c2, ⟨l2, q2⟩, g2, ⟨m2, r2⟩⟩ := h2
  refine ⟨e2, o2.trans o1, ?_, ⟨l1 ++ l2, ?_⟩, g2.trans g1, ⟨m1 ++ m2, ?_⟩⟩
  · intro k
    rcases c2 k with h | h
    · rw [h]; exact c1 k
    · exact Or.inr h
  · rw [q2, q1, List.append_assoc]
  · rw [r2, r1, List.append_assoc]

lemma on_frame (k : Key) (g : HandlerId) (s : St) (hs : s.isEmitting = true) :
    Frame s («on» k g s) := by
  rw [on_emitting k g s hs]
  exact ⟨hs, rfl, fun _ => Or.inl rfl, ⟨[(k, g)], rfl⟩, rfl, ⟨[], by simp⟩⟩

lemma once_frame (k : Key) (g : HandlerId) (s : St) (hs : s.isEmitting = true) :
    Frame s (once k g s) := by
  rw [once_emitting k g s hs]
  exact ⟨hs, rfl, fun _ => Or.inl rfl, ⟨[(k, g)], rfl⟩, rfl, ⟨[], by simp⟩⟩

lemma remove_frame (g : HandlerId) (s : St) (hs : s.isEmitting = true) :
    Frame s (removeListener g s) := by
  rw [remove_emitting g s hs]
  exact ⟨hs, rfl, fun _ => Or.inl rfl, ⟨[], by simp⟩, rfl, ⟨[g], rfl⟩⟩

lemma runActs_frame (recEmit : Key → Args → St → Res) (hrec : EmitFrame recEmit) :
    ∀ (acts : List Action) (s s' : St) (t : Trace) (r : Option Reason),
      s.isEmitting = true → runActs recEmit acts s = some (s', t, r) → Frame s s' := by
  intro acts
  induction acts with
  | nil =>
    intro s s' t r hs h
    simp only [runActs, Option.some.injEq, Prod.mk.injEq] at h
    obtain ⟨rfl, -, -⟩ := h
    exact frame_refl s hs
  | cons a rest ih =>
    cases a with
    | onA k g =>
      intro s s' t r hs h
      simp only [runActs] at h
      have hf : Frame s («on» k g s) := on_frame k g s hs
      exact frame_trans hf (ih _ _ _ _ hf.1 h)
    | onceA k g =>
      intro s s' t r hs h
      simp only [runActs] at h
      have hf : Frame s (once k g s) := once_frame k g s hs
      exact frame_trans hf (ih _ _ _ _ hf.1 h)
    | removeA g =>
      intro s s' t r hs h
      simp only [runActs] at h
      have hf : Frame s (removeListener g s) := remove_frame g s hs
      exact frame_trans hf (ih _ _ _ _ hf.1 h)
    | emitA k a =>
      intro s s' t r hs h
      simp only [runActs] at h
      cases hE : recEmit k a s with
      | none => rw [hE] at h; exact absurd h (by simp)
      | some v =>
        obtain ⟨sm, tm, rm⟩ := v
        rw [hE] at h
        have hf : Frame s sm := hrec _ _ _ _ _ _ hs hE
        cases rm with
        | some rr =>
          simp only [Option.some.injEq, Prod.mk.injEq] at h
          obtain ⟨rfl, -, -⟩ := h
          exact hf
        | none =>
          dsimp only at h
          cases hR : runActs recEmit rest sm with
          | none => rw [hR] at h; exact absurd h (by simp)
          | some w =>
            obtain ⟨s2, t2, r2⟩ := w
            rw [hR] at h
            simp only [Option.some.injEq, Prod.mk.injEq] at h
            obtain ⟨rfl, -, -⟩ := h
            exact frame_trans hf (ih _ _ _ _ hf.1 hR)

lemma runHandler_frame (recEmit : Key → Args → St → Res) (beh : Behavior)
    (hrec : EmitFrame recEmit) (g : HandlerId) (a : Args) (s s' : St) (t : Trace)
    (r : Option Reason) (hs : s.isEmitting = true)
    (h : runHandler recEmit beh g a s = some (s', t, r)) : Frame s s' := by
  unfold runHandler at h
  cases hA : runActs recEmit (beh.acts g a) s with
  | none => rw [hA] at h; exact absurd h (by simp)
  | some v =>
    obtain ⟨sm, tm, rm⟩ := v
    rw [hA] at h
    have hf : Frame s sm := runActs_frame recEmit hrec _ _ _ _ _ hs hA
    cases rm with
    | some rr =>
      simp only [Option.some.injEq, Prod.mk.injEq] at h
      obtain ⟨rfl, -, -⟩ := h
      exact hf
    | none =>
      simp only [Option.some.injEq, Prod.mk.injEq] at h
      obtain ⟨rfl, -, -⟩ := h
      exact hf

lemma runSeq_frame (step : HandlerId → St → Res)
    (hstep : ∀ g s s' t r, s.isEmitting = true → step g s = some (s', t, r) → Frame s s') :
    ∀ (hs : List HandlerId) (s s' : St) (t : Trace) (r : Option Reason),
      s.isEmitting = true → runSeq step hs s = some (s', t, r) → Frame s s' := by
  intro hs
  induction hs with
  | nil =>
    intro s s' t r he h
    simp only [runSeq, Option.some.injEq, Prod.mk.injEq] at h
    obtain ⟨rfl, -, -⟩ := h
    exact frame_refl s he
  | cons g gs ih =>
    intro s s' t r he h
    simp only [runSeq] at h
    cases hS : step g s with
    | none => rw [hS] at h; exact absurd h (by simp)
    | some v =>
      obtain ⟨sm, tm, rm⟩ := v
      rw [hS] at h
      have hf : Frame s sm := hstep _ _ _ _ _ he hS
      cases rm with
      | some rr =>
        simp only [Option.some.injEq, Prod.mk.injEq] at h
        obtain ⟨rfl, -, -⟩ := h
        exact hf
      | none =>
        dsimp only at h
        cases hR : runSeq step gs sm with
        | none => rw [hR] at h; exact absurd h (by simp)
        | some w =>
          obtain ⟨s2, t2, r2⟩ := w
          rw [hR] at h
          simp only [Option.some.injEq, Prod.mk.injEq] at h
          obtain ⟨rfl, -, -⟩ := h
          exact frame_trans hf (ih _ _ _ _ hf.1 hR)

end Events

namespace Events

lemma raise_eq (s : St) (hs : s.isEmitting = true) :
    ({ s with isEmitting := true } : St) = s := by
  cases s
  simp_all

lemma emitStep_frame (recEmit : Key → Args → St → Res) (beh : Behavior)
    (hrec : EmitFrame recEmit) : EmitFrame (emitStep recEmit beh) := by
  intro k a s s' t r hs h
  unfold emitStep at h
  simp only [raise_eq s hs] at h
  cases hP1 : runSeq (fun g st => runHandler recEmit beh g a st) (s.onHandlers k) s with
  | none => rw [hP1] at h; exact absurd h (by simp)
  | some v =>
    obtain ⟨s2, t1, r1⟩ := v
    rw [hP1] at h
    have hf1 : Frame s s2 :=
      runSeq_frame _ (fun g st s' t r he hh => runHandler_frame recEmit beh hrec g a st s' t r he hh)
        _ _ _ _ _ hs hP1
    cases r1 with
    | some rr =>
      simp only [Option.some.injEq, Prod.mk.injEq] at h
      obtain ⟨rfl, -, -⟩ := h
      exact hf1
    | none =>
      dsimp only at h
      cases hP2 : runSeq (fun g st => runHandler recEmit beh g a st) (s2.onceHandlers k) s2 with
      | none => rw [hP2] at h; exact absurd h (by simp)
      | some w =>
        obtain ⟨s3, t2, r2⟩ := w
        rw [hP2] at h
        have hf2 : Frame s2 s3 :=
          runSeq_frame _ (fun g st s' t r he hh => runHandler_frame recEmit beh hrec g a st s' t r he hh)
            _ _ _ _ _ hf1.1 hP2
        cases r2 with
        | some rr =>
          simp only [Option.some.injEq, Prod.mk.injEq] at h
          obtain ⟨rfl, -, -⟩ := h
          exact frame_trans hf1 hf2
        | none =>
          simp only [hs, if_true, Option.some.injEq, Prod.mk.injEq] at h
          obtain ⟨rfl, -, -⟩ := h
          have hf3 : Frame s3
              ({ s3 with onceHandlers := setList s3.onceHandlers k [] } : St) := by
            refine ⟨hf2.1, rfl, ?_, ⟨[], by simp⟩, rfl, ⟨[], by simp⟩⟩
            intro k'
            dsimp only
            by_cases hk : k' = k
            · subst hk; rw [setList_self]; exact Or.inr rfl
            · rw [setList_ne _ _ _ _ hk]; exact Or.inl rfl
          have hf4 : Frame ({ s3 with onceHandlers := setList s3.onceHandlers k [] } : St)
              ({ s3 with onceHandlers := setList s3.onceHandlers k [], isEmitting := true } : St) :=
            ⟨rfl, rfl, fun _ => Or.inl rfl, ⟨[], by simp⟩, rfl, ⟨[], by simp⟩⟩
          exact frame_trans (frame_trans hf1 hf2) (frame_trans hf3 hf4)

lemma emit_frame (beh : Behavior) : ∀ n : Nat, EmitFrame (emit beh n) := by
  intro n
  induction n with
  | zero => intro k a s s' t r _ h; rw [emit_zero] at h; exact absurd h (by simp)
  | succ m ih =>
    intro k a s s' t r hs h
    rw [emit_succ] at h
    exact emitStep_frame (emit beh m) beh ih k a s s' t r hs h

end Events

namespace Events

lemma notReg_of_frame {s s' : St} (hf : Frame s s') {g : HandlerId}
    (hn : NotReg g s) : NotReg g s' := by
  intro k
  obtain ⟨-, ho, hc, -, -, -⟩ := hf
  refine ⟨?_, ?_⟩
  · rw [ho]; exact (hn k).1
  · rcases hc k with h | h
    · rw [h]; exact (hn k).2
    · rw [h]; exact List.not_mem_nil g

lemma notReg_on (g : HandlerId) (k : Key) (x : HandlerId) (s : St)
    (hs : s.isEmitting = true) (hn : NotReg g s) : NotReg g («on» k x s) :=
  notReg_of_frame (on_frame k x s hs) hn

lemma notReg_once (g : HandlerId) (k : Key) (x : HandlerId) (s : St)
    (hs : s.isEmitting = true) (hn : NotReg g s) : NotReg g (once k x s) :=
  notReg_of_frame (once_frame k x s hs) hn

lemma notReg_remove (g : HandlerId) (x : HandlerId) (s : St)
    (hs : s.isEmitting = true) (hn : NotReg g s) : NotReg g (removeListener x s) :=
  notReg_of_frame (remove_frame x s hs) hn

lemma runActs_noinv (recEmit : Key → Args → St → Res)
    (hF : EmitFrame recEmit) (hN : EmitNoInv recEmit) :
    ∀ (acts : List Action) (s s' : St) (t : Trace) (r : Option Reason) (g : HandlerId),
      s.isEmitting = true → NotReg g s → runActs recEmit acts s = some (s', t, r) →
      ∀ a', (g, a') ∉ t := by
  intro acts
  induction acts with
  | nil =>
    intro s s' t r g hs hn h a'
    simp only [runActs, Option.some.injEq, Prod.mk.injEq] at h
    obtain ⟨-, ht, -⟩ := h
    rw [← ht]
    exact List.not_mem_nil _
  | cons a rest ih =>
    cases a with
    | onA k x =>
      intro s s' t r g hs hn h a'
      simp only [runActs] at h
      exact ih _ _ _ _ g ((on_frame k x s hs).1) (notReg_on g k x s hs hn) h a'
    | onceA k x =>
      intro s s' t r g hs hn h a'
      simp only [runActs] at h
      exact ih _ _ _ _ g ((once_frame k x s hs).1) (notReg_once g k x s hs hn) h a'
    | removeA x =>
      intro s s' t r g hs hn h a'
      simp only [runActs] at h
      exact ih _ _ _ _ g ((remove_frame x s hs).1) (notReg_remove g x s hs hn) h a'
    | emitA k a =>
      intro s s' t r g hs hn h a'
      simp only [runActs] at h
      cases hE : recEmit k a s with
      | none => rw [hE] at h; exact absurd h (by simp)
      | some v =>
        obtain ⟨sm, tm, rm⟩ := v
        rw [hE] at h
        have hfm : Frame s sm := hF _ _ _ _ _ _ hs hE
        have hnm : NotReg g sm := notReg_of_frame hfm hn
        have htm : (g, a') ∉ tm := hN _ _ _ _ _ _ g hn hE a'
        cases rm with
        | some rr =>
          simp only [Option.some.injEq, Prod.mk.injEq] at h
          obtain ⟨-, ht, -⟩ := h
          rw [← ht]
          exact htm
        | none =>
          dsimp only at h
          cases hR : runActs recEmit rest sm with
          | none => rw [hR] at h; exact absurd h (by simp)
          | some w =>
            obtain ⟨s2, t2, r2⟩ := w
            rw [hR] at h
            simp only [Option.some.injEq, Prod.mk.injEq] at h
            obtain ⟨-, ht, -⟩ := h
            rw [← ht]
            simp only [List.mem_append]
            rintro (hx | hx)
            · exact htm hx
            · exact ih _ _ _ _ g hfm.1 hnm hR a' hx

lemma runHandler_trace (recEmit : Key → Args → St → Res) (beh : Behavior)
    (x : HandlerId) (a : Args) (s s' : St) (t : Trace) (r : Option Reason)
    (h : runHandler recEmit beh x a s = some (s', t, r)) :
    ∃ t0, t = (x, a) :: t0 := by
  unfold runHandler at h
  cases hA : runActs recEmit (beh.acts x a) s with
  | none => rw [hA] at h; exact absurd h (by simp)
  | some v =>
    obtain ⟨sm, tm, rm⟩ := v
    rw [hA] at h
    cases rm with
    | some rr =>
      simp only [Option.some.injEq, Prod.mk.injEq] at h
      obtain ⟨-, ht, -⟩ := h
      exact ⟨tm, ht.symm⟩
    | none =>
      simp only [Option.some.injEq, Prod.mk.injEq] at h
      obtain ⟨-, ht, -⟩ := h
      exact ⟨tm, ht.symm⟩

lemma runHandler_noinv (recEmit : Key → Args → St → Res) (beh : Behavior)
    (hF : EmitFrame recEmit) (hN : EmitNoInv recEmit)
    (x : HandlerId) (a : Args) (s s' : St) (t : Trace) (r : Option Reason)
    (g : HandlerId) (hs : s.isEmitting = true) (hn : NotReg g s) (hgx : g ≠ x)
    (h : runHandler recEmit beh x a s = some (s', t, r)) :
    ∀ a', (g, a') ∉ t := by
  intro a'
  unfold runHandler at h
  cases hA : runActs recEmit (beh.acts x a) s with
  | none => rw [hA] at h; exact absurd h (by simp)
  | some v =>
    obtain ⟨sm, tm, rm⟩ := v
    rw [hA] at h
    have hin : (g, a') ∉ tm := runActs_noinv recEmit hF hN _ _ _ _ _ g hs hn hA a'
    cases rm with
    | some rr =>
      simp only [Option.some.injEq, Prod.mk.injEq] at h
      obtain ⟨-, ht, -⟩ := h
      rw [← ht]
      simp only [List.mem_cons]
      rintro (hx | hx)
      · exact hgx (by injection hx)
      · exact hin hx
    | none =>
      simp only [Option.some.injEq, Prod.mk.injEq] at h
      obtain ⟨-, ht, -⟩ := h
      rw [← ht]
      simp only [List.mem_cons]
      rintro (hx | hx)
      · exact hgx (by injection hx)
      · exact hin hx

lemma runSeq_noinv (recEmit : Key → Args → St → Res) (beh : Behavior)
    (hF : EmitFrame recEmit) (hN : EmitNoInv recEmit) (a : Args) :
    ∀ (l : List HandlerId) (s s' : St) (t : Trace) (r : Option Reason) (g : HandlerId),
      s.isEmitting = true → NotReg g s → g ∉ l →
      runSeq (fun x st => runHandler recEmit beh x a st) l s = some (s', t, r) →
      ∀ a', (g, a') ∉ t := by
  intro l
  induction l with
  | nil =>
    intro s s' t r g hs hn hgl h a'
    simp only [runSeq, Option.some.injEq, Prod.mk.injEq] at h
    obtain ⟨-, ht, -⟩ := h
    rw [← ht]
    exact List.not_mem_nil _
  | cons x xs ih =>
    intro s s' t r g hs hn hgl h a'
    simp only [runSeq] at h
    have hgx : g ≠ x := fun hgg => hgl (hgg ▸ List.mem_cons_self x xs)
    have hgxs : g ∉ xs := fun hgg => hgl (List.mem_cons_of_mem x hgg)
    cases hS : runHandler recEmit beh x a s with
    | none => rw [hS] at h; exact absurd h (by simp)
    | some v =>
      obtain ⟨sm, tm, rm⟩ := v
      rw [hS] at h
      have hfm : Frame s sm :=
        runHandler_frame recEmit beh hF x a s sm tm rm hs hS
      have htm : (g, a') ∉ tm :=
        runHandler_noinv recEmit beh hF hN x a s sm tm rm g hs hn hgx hS a'
      cases rm with
      | some rr =>
        simp only [Option.some.injEq, Prod.mk.injEq] at h
        obtain ⟨-, ht, -⟩ := h
        rw [← ht]
        exact htm
      | none =>
        dsimp only at h
        cases hR : runSeq (fun x st => runHandler recEmit beh x a st) xs sm with
        | none => rw [hR] at h; exact absurd h (by simp)
        | some w =>
          obtain ⟨s2, t2, r2⟩ := w
          rw [hR] at h
          simp only [Option.some.injEq, Prod.mk.injEq] at h
          obtain ⟨-, ht, -⟩ := h
          rw [← ht]
          simp only [List.mem_append]
          rintro (hx | hx)
          · exact htm hx
          · exact ih _ _ _ _ g hfm.1 (notReg_of_frame hfm hn) hgxs hR a' hx

lemma emitStep_noinv (recEmit : Key → Args → St → Res) (beh : Behavior)
    (hF : EmitFrame recEmit) (hN : EmitNoInv recEmit) :
    EmitNoInv (emitStep recEmit beh) := by
  intro k a s s' t r g hn h a'
  unfold emitStep at h
  dsimp only at h
  have hn1 : NotReg g ({ s with isEmitting := true } : St) := fun k' => hn k'
  cases hP1 : runSeq (fun x st => runHandler recEmit beh x a st)
      (s.onHandlers k) ({ s with isEmitting := true } : St) with
  | none =>
    rw [hP1] at h
    exact absurd h (by simp)
  | some v =>
    obtain ⟨s2, t1, r1⟩ := v
    rw [hP1] at h
    have hf1 : Frame ({ s with isEmitting := true } : St) s2 :=
      runSeq_frame _ (fun x st s' t r he hh => runHandler_frame recEmit beh hF x a st s' t r he hh)
        _ _ _ _ _ rfl hP1
    have ht1 : (g, a') ∉ t1 :=
      runSeq_noinv recEmit beh hF hN a _ _ _ _ _ g rfl hn1 (hn k).1 hP1 a'
    cases r1 with
    | some rr =>
      simp only [Option.some.injEq, Prod.mk.injEq] at h
      obtain ⟨-, ht, -⟩ := h
      rw [← ht]
      exact ht1
    | none =>
      dsimp only at h
      have hn2 : NotReg g s2 := notReg_of_frame hf1 hn1
      cases hP2 : runSeq (fun x st => runHandler recEmit beh x a st) (s2.onceHandlers k) s2 with
      | none => rw [hP2] at h; exact absurd h (by simp)
      | some w =>
        obtain ⟨s3, t2, r2⟩ := w
        rw [hP2] at h
        have ht2 : (g, a') ∉ t2 :=
          runSeq_noinv recEmit beh hF hN a _ _ _ _ _ g hf1.1 hn2 (hn2 k).2 hP2 a'
        cases r2 with
        | some rr =>
          simp only [Option.some.injEq, Prod.mk.injEq] at h
          obtain ⟨-, ht, -⟩ := h
          rw [← ht]
          simp only [List.mem_append]
          rintro (hx | hx)
          · exact ht1 hx
          · exact ht2 hx
        | none =>
          by_cases hw : s.isEmitting = true <;>
            simp only [hw, if_true, if_false, Bool.false_eq_true,
              Option.some.injEq, Prod.mk.injEq] at h
          · obtain ⟨-, ht, -⟩ := h
            rw [← ht]
            simp only [List.mem_append]
            rintro (hx | hx)
            · exact ht1 hx
            · exact ht2 hx
          · obtain ⟨-, ht, -⟩ := h
            rw [← ht]
            simp only [List.mem_append]
            rintro (hx | hx)
            · exact ht1 hx
            · exact ht2 hx

lemma emit_noinv (beh : Behavior) : ∀ n : Nat, EmitNoInv (emit beh n) := by
  intro n
  induction n with
  | zero => intro k a s s' t r g _ h; rw [emit_zero] at h; exact absurd h (by simp)
  | succ m ih =>
    intro k a s s' t r g hn h
    rw [emit_succ] at h
    exact emitStep_noinv (emit beh m) beh (emit_frame beh m) ih k a s s' t r g hn h

end Events

namespace Events

lemma runActs_origin (recEmit : Key → Args → St → Res) (beh : Behavior)
    (hO : EmitOrigin beh recEmit) :
    ∀ (acts : List Action) (s s' : St) (t : Trace) (r : Reason),
      runActs recEmit acts s = some (s', t, some r) →
      ∃ g a', (g, a') ∈ t ∧ beh.rejectsWith g a' = some r := by
  intro acts
  induction acts with
  | nil =>
    intro s s' t r h
    simp only [runActs, Option.some.injEq, Prod.mk.injEq] at h
    obtain ⟨-, -, hr⟩ := h
    exact absurd hr (by simp)
  | cons a rest ih =>
    cases a with
    | onA k x => intro s s' t r h; simp only [runActs] at h; exact ih _ _ _ _ h
    | onceA k x => intro s s' t r h; simp only [runActs] at h; exact ih _ _ _ _ h
    | removeA x => intro s s' t r h; simp only [runActs] at h; exact ih _ _ _ _ h
    | emitA k a =>
      intro s s' t r h
      simp only [runActs] at h
      cases hE : recEmit k a s with
      | none => rw [hE] at h; exact absurd h (by simp)
      | some v =>
        obtain ⟨sm, tm, rm⟩ := v
        rw [hE] at h
        cases rm with
        | some rr =>
          simp only [Option.some.injEq, Prod.mk.injEq] at h
          obtain ⟨-, ht, hr⟩ := h
          obtain ⟨g, a', hg, hgr⟩ := hO _ _ _ _ _ _ hE
          exact ⟨g, a', ht ▸ hg, by rw [hgr]; exact congrArg some hr⟩
        | none =>
          dsimp only at h
          cases hR : runActs recEmit rest sm with
          | none => rw [hR] at h; exact absurd h (by simp)
          | some w =>
            obtain ⟨s2, t2, r2⟩ := w
            rw [hR] at h
            simp only [Option.some.injEq, Prod.mk.injEq] at h
            obtain ⟨-, ht, hr⟩ := h
            obtain ⟨g, a', hg, hgr⟩ := ih _ _ _ _ (hr ▸ hR)
            exact ⟨g, a', ht ▸ List.mem_append_right tm hg, hgr⟩

lemma runHandler_origin (recEmit : Key → Args → St → Res) (beh : Behavior)
    (hO : EmitOrigin beh recEmit) (x : HandlerId) (a : Args) (s s' : St)
    (t : Trace) (r : Reason)
    (h : runHandler recEmit beh x a s = some (s', t, some r)) :
    ∃ g a', (g, a') ∈ t ∧ beh.rejectsWith g a' = some r := by
  unfold runHandler at h
  cases hA : runActs recEmit (beh.acts x a) s with
  | none => rw [hA] at h; exact absurd h (by simp)
  | some v =>
    obtain ⟨sm, tm, rm⟩ := v
    rw [hA] at h
    cases rm with
    | some rr =>
      simp only [Option.some.injEq, Prod.mk.injEq] at h
      obtain ⟨-, ht, hr⟩ := h
      obtain ⟨g, a', hg, hgr⟩ := runActs_origin recEmit beh hO _ _ _ _ _ hA
      refine ⟨g, a', ?_, ?_⟩
      · rw [← ht]; exact List.mem_cons_of_mem _ hg
      · rw [hgr]; exact congrArg some hr
    | none =>
      simp only [Option.some.injEq, Prod.mk.injEq] at h
      obtain ⟨-, ht, hr⟩ := h
      exact ⟨x, a, by rw [← ht]; exact List.mem_cons_self _ _, hr⟩

lemma runSeq_origin (recEmit : Key → Args → St → Res) (beh : Behavior)
    (hO : EmitOrigin beh recEmit) (a : Args) :
    ∀ (l : List HandlerId) (s s' : St) (t : Trace) (r : Reason),
      runSeq (fun x st => runHandler recEmit beh x a st) l s = some (s', t, some r) →
      ∃ g a', (g, a') ∈ t ∧ beh.rejectsWith g a' = some r := by
  intro l
  induction l with
  | nil =>
    intro s s' t r h
    simp only [runSeq, Option.some.injEq, Prod.mk.injEq] at h
    obtain ⟨-, -, hr⟩ := h
    exact absurd hr (by simp)
  | cons x xs ih =>
    intro s s' t r h
    simp only [runSeq] at h
    cases hS : runHandler recEmit beh x a s with
    | none => rw [hS] at h; exact absurd h (by simp)
    | some v =>
      obtain ⟨sm, tm, rm⟩ := v
      rw [hS] at h
      cases rm with
      | some rr =>
        simp only [Option.some.injEq, Prod.mk.injEq] at h
        obtain ⟨-, ht, hr⟩ := h
        obtain ⟨g, a', hg, hgr⟩ :=
          runHandler_origin recEmit beh hO x a s sm tm rr hS
        exact ⟨g, a', ht ▸ hg, by rw [hgr]; exact congrArg some hr⟩
      | none =>
        dsimp only at h
        cases hR : runSeq (fun x st => runHandler recEmit beh x a st) xs sm with
        | none => rw [hR] at h; exact absurd h (by simp)
        | some w =>
          obtain ⟨s2, t2, r2⟩ := w
          rw [hR] at h
          simp only [Option.some.injEq, Prod.mk.injEq] at h
          obtain ⟨-, ht, hr⟩ := h
          obtain ⟨g, a', hg, hgr⟩ := ih _ _ _ _ (hr ▸ hR)
          exact ⟨g, a', ht ▸ List.mem_append_right tm hg, hgr⟩

lemma emitStep_origin (recEmit : Key → Args → St → Res) (beh : Behavior)
    (hO : EmitOrigin beh recEmit) : EmitOrigin beh (emitStep recEmit beh) := by
  intro k a s s' t r h
  unfold emitStep at h
  dsimp only at h
  cases hP1 : runSeq (fun x st => runHandler recEmit beh x a st)
      (s.onHandlers k) ({ s with isEmitting := true } : St) with
  | none => rw [hP1] at h; exact absurd h (by simp)
  | some v =>
    obtain ⟨s2, t1, r1⟩ := v
    rw [hP1] at h
    cases r1 with
    | some rr =>
      simp only [Option.some.injEq, Prod.mk.injEq] at h
      obtain ⟨-, ht, hr⟩ := h
      obtain ⟨g, a', hg, hgr⟩ := runSeq_origin recEmit beh hO a _ _ _ _ _ hP1
      exact ⟨g, a', ht ▸ hg, by rw [hgr]; exact congrArg some hr⟩
    | none =>
      dsimp only at h
      cases hP2 : runSeq (fun x st => runHandler recEmit beh x a st) (s2.onceHandlers k) s2 with
      | none => rw [hP2] at h; exact absurd h (by simp)
      | some w =>
        obtain ⟨s3, t2, r2⟩ := w
        rw [hP2] at h
        cases r2 with
        | some rr =>
          simp only [Option.some.injEq, Prod.mk.injEq] at h
          obtain ⟨-, ht, hr⟩ := h
          obtain ⟨g, a', hg, hgr⟩ := runSeq_origin recEmit beh hO a _ _ _ _ _ hP2
          exact ⟨g, a', ht ▸ List.mem_append_right t1 hg,
            by rw [hgr]; exact congrArg some hr⟩
        | none =>
          by_cases hw : s.isEmitting = true <;>
            simp only [hw, if_true, if_false, Bool.false_eq_true,
              Option.some.injEq, Prod.mk.injEq] at h
          · exact absurd h.2.2 (by simp)
          · exact absurd h.2.2 (by simp)

lemma emit_origin (beh : Behavior) : ∀ n : Nat, EmitOrigin beh (emit beh n) := by
  intro n
  induction n with
  | zero => intro k a s s' t r h; rw [emit_zero] at h; exact absurd h (by simp)
  | succ m ih =>
    intro k a s s' t r h
    rw [emit_succ] at h
    exact emitStep_origin (emit beh m) beh ih k a s s' t r h

end Events

namespace Events

lemma runActs_remfree (recEmit : Key → Args → St → Res) (g : HandlerId)
    (hF : EmitFrame recEmit) (hR : EmitRemFree recEmit g) :
    ∀ (acts : List Action), Action.removeA g ∉ acts →
      ∀ (s s' : St) (t : Trace) (r : Option Reason), s.isEmitting = true →
        runActs recEmit acts s = some (s', t, r) →
        g ∈ s'.toRemove → g ∈ s.toRemove := by
  intro acts
  induction acts with
  | nil =>
    intro _ s s' t r _ h hg
    simp only [runActs, Option.some.injEq, Prod.mk.injEq] at h
    obtain ⟨rfl, -, -⟩ := h
    exact hg
  | cons a rest ih =>
    cases a with
    | onA k x =>
      intro hna s s' t r hs h hg
      simp only [runActs] at h
      have hna' : Action.removeA g ∉ rest := fun hx => hna (List.mem_cons_of_mem _ hx)
      have := ih hna' _ _ _ _ ((on_frame k x s hs).1) h hg
      rw [on_emitting k x s hs] at this
      exact this
    | onceA k x =>
      intro hna s s' t r hs h hg
      simp only [runActs] at h
      have hna' : Action.removeA g ∉ rest := fun hx => hna (List.mem_cons_of_mem _ hx)
      have := ih hna' _ _ _ _ ((once_frame k x s hs).1) h hg
      rw [once_emitting k x s hs] at this
      exact this
    | removeA x =>
      intro hna s s' t r hs h hg
      simp only [runActs] at h
      have hxg : x ≠ g := by
        intro hxx
        exact hna (by rw [hxx]; exact List.mem_cons_self _ _)
      have hna' : Action.removeA g ∉ rest := fun hx => hna (List.mem_cons_of_mem _ hx)
      have := ih hna' _ _ _ _ ((remove_frame x s hs).1) h hg
      rw [remove_emitting x s hs] at this
      rcases List.mem_append.mp this with hm | hm
      · exact hm
      · exact absurd (List.mem_singleton.mp hm).symm hxg
    | emitA k a =>
      intro hna s s' t r hs h hg
      simp only [runActs] at h
      have hna' : Action.removeA g ∉ rest := fun hx => hna (List.mem_cons_of_mem _ hx)
      cases hE : recEmit k a s with
      | none => rw [hE] at h; exact absurd h (by simp)
      | some v =>
        obtain ⟨sm, tm, rm⟩ := v
        rw [hE] at h
        have hfm : Frame s sm := hF _ _ _ _ _ _ hs hE
        cases rm with
        | some rr =>
          simp only [Option.some.injEq, Prod.mk.injEq] at h
          obtain ⟨hst, -, -⟩ := h
          exact hR _ _ _ _ _ _ hs hE (hst ▸ hg)
        | none =>
          dsimp only at h
          cases hKK : runActs recEmit rest sm with
          | none => rw [hKK] at h; exact absurd h (by simp)
          | some w =>
            obtain ⟨s2, t2, r2⟩ := w
            rw [hKK] at h
            simp only [Option.some.injEq, Prod.mk.injEq] at h
            obtain ⟨hst, -, -⟩ := h
            exact hR _ _ _ _ _ _ hs hE (ih hna' _ _ _ _ hfm.1 hKK (hst ▸ hg))

lemma runHandler_remfree (recEmit : Key → Args → St → Res) (beh : Behavior)
    (g : HandlerId) (hF : EmitFrame recEmit) (hR : EmitRemFree recEmit g)
    (hA : ActsNoRemove beh g) (x : HandlerId) (a : Args) (s s' : St) (t : Trace)
    (r : Option Reason) (hs : s.isEmitting = true)
    (h : runHandler recEmit beh x a s = some (s', t, r)) :
    g ∈ s'.toRemove → g ∈ s.toRemove := by
  intro hg
  unfold runHandler at h
  cases hAc : runActs recEmit (beh.acts x a) s with
  | none => rw [hAc] at h; exact absurd h (by simp)
  | some v =>
    obtain ⟨sm, tm, rm⟩ := v
    rw [hAc] at h
    have hkey : g ∈ sm.toRemove → g ∈ s.toRemove :=
      runActs_remfree recEmit g hF hR _ (hA x a) _ _ _ _ hs hAc
    cases rm with
    | some rr =>
      simp only [Option.some.injEq, Prod.mk.injEq] at h
      obtain ⟨hst, -, -⟩ := h
      exact hkey (hst ▸ hg)
    | none =>
      simp only [Option.some.injEq, Prod.mk.injEq] at h
      obtain ⟨hst, -, -⟩ := h
      exact hkey (hst ▸ hg)

lemma runSeq_remfree (recEmit : Key → Args → St → Res) (beh : Behavior)
    (g : HandlerId) (hF : EmitFrame recEmit) (hR : EmitRemFree recEmit g)
    (hA : ActsNoRemove beh g) (a : Args) :
    ∀ (l : List HandlerId) (s s' : St) (t : Trace) (r : Option Reason),
      s.isEmitting = true →
      runSeq (fun x st => runHandler recEmit beh x a st) l s = some (s', t, r) →
      g ∈ s'.toRemove → g ∈ s.toRemove := by
  intro l
  induction l with
  | nil =>
    intro s s' t r _ h hg
    simp only [runSeq, Option.some.injEq, Prod.mk.injEq] at h
    obtain ⟨hst, -, -⟩ := h
    exact hst ▸ hg
  | cons x xs ih =>
    intro s s' t r hs h hg
    simp only [runSeq] at h
    cases hS : runHandler recEmit beh x a s with
    | none => rw [hS] at h; exact absurd h (by simp)
    | some v =>
      obtain ⟨sm, tm, rm⟩ := v
      rw [hS] at h
      have hfm : Frame s sm := runHandler_frame recEmit beh hF x a s sm tm rm hs hS
      have hkey : g ∈ sm.toRemove → g ∈ s.toRemove :=
        runHandler_remfree recEmit beh g hF hR hA x a s sm tm rm hs hS
      cases rm with
      | some rr =>
        simp only [Option.some.injEq, Prod.mk.injEq] at h
        obtain ⟨hst, -, -⟩ := h
        exact hkey (hst ▸ hg)
      | none =>
        dsimp only at h
        cases hKK : runSeq (fun x st => runHandler recEmit beh x a st) xs sm with
        | none => rw [hKK] at h; exact absurd h (by simp)
        | some w =>
          obtain ⟨s2, t2, r2⟩ := w
          rw [hKK] at h
          simp only [Option.some.injEq, Prod.mk.injEq] at h
          obtain ⟨hst, -, -⟩ := h
          exact hkey (ih _ _ _ _ hfm.1 hKK (hst ▸ hg))

lemma emitStep_remfree (recEmit : Key → Args → St → Res) (beh : Behavior)
    (g : HandlerId) (hF : EmitFrame recEmit) (hR : EmitRemFree recEmit g)
    (hA : ActsNoRemove beh g) : EmitRemFree (emitStep recEmit beh) g := by
  intro k a s s' t r hs h hg
  unfold emitStep at h
  dsimp only at h
  cases hP1 : runSeq (fun x st => runHandler recEmit beh x a st)
      (s.onHandlers k) ({ s with isEmitting := true } : St) with
  | none => rw [hP1] at h; exact absurd h (by simp)
  | some v =>
    obtain ⟨s2, t1, r1⟩ := v
    rw [hP1] at h
    have hk1 : g ∈ s2.toRemove → g ∈ s.toRemove :=
      runSeq_remfree recEmit beh g hF hR hA a (s.onHandlers k)
        ({ s with isEmitting := true } : St) s2 t1 r1 rfl hP1
    have hf1 : Frame ({ s with isEmitting := true } : St) s2 :=
      runSeq_frame _ (fun x st s' t r he hh => runHandler_frame recEmit beh hF x a st s' t r he hh)
        _ _ _ _ _ rfl hP1
    cases r1 with
    | some rr =>
      simp only [Option.some.injEq, Prod.mk.injEq] at h
      obtain ⟨hst, -, -⟩ := h
      exact hk1 (hst ▸ hg)
    | none =>
      dsimp only at h
      cases hP2 : runSeq (fun x st => runHandler recEmit beh x a st) (s2.onceHandlers k) s2 with
      | none => rw [hP2] at h; exact absurd h (by simp)
      | some w =>
        obtain ⟨s3, t2, r2⟩ := w
        rw [hP2] at h
        have hk2 : g ∈ s3.toRemove → g ∈ s2.toRemove :=
          runSeq_remfree recEmit beh g hF hR hA a _ _ _ _ _ hf1.1 hP2
        cases r2 with
        | some rr =>
          simp only [Option.some.injEq, Prod.mk.injEq] at h
          obtain ⟨hst, -, -⟩ := h
          exact hk1 (hk2 (hst ▸ hg))
        | none =>
          simp only [hs, if_true, Option.some.injEq, Prod.mk.injEq] at h
          obtain ⟨hst, -, -⟩ := h
          rw [← hst] at hg
          exact hk1 (hk2 hg)

lemma emit_remfree (beh : Behavior) (g : HandlerId) (hA : ActsNoRemove beh g) :
    ∀ n : Nat, EmitRemFree (emit beh n) g := by
  intro n
  induction n with
  | zero => intro k a s s' t r _ h; rw [emit_zero] at h; exact absurd h (by simp)
  | succ m ih =>
    intro k a s s' t r hs h
    rw [emit_succ] at h
    exact emitStep_remfree (emit beh m) beh g (emit_frame beh m) ih hA k a s s' t r hs h

end Events

namespace Events

lemma keeps_refl (s : St) : Keeps s s := ⟨rfl, rfl, rfl, rfl⟩

lemma keeps_trans {s s' s'' : St} (h1 : Keeps s s') (h2 : Keeps s' s'') :
    Keeps s s'' :=
  ⟨h2.1.trans h1.1, h2.2.1.trans h1.2.1, h2.2.2.1.trans h1.2.2.1,
    h2.2.2.2.trans h1.2.2.2⟩

lemma on_keeps (k : Key) (x : HandlerId) (s : St) (hs : s.isEmitting = true) :
    Keeps s («on» k x s) := by
  rw [on_emitting k x s hs]
  exact ⟨rfl, rfl, rfl, rfl⟩

lemma once_keeps (k : Key) (x : HandlerId) (s : St) (hs : s.isEmitting = true) :
    Keeps s (once k x s) := by
  rw [once_emitting k x s hs]
  exact ⟨rfl, rfl, rfl, rfl⟩

lemma remove_keeps (x : HandlerId) (s : St) (hs : s.isEmitting = true) :
    Keeps s (removeListener x s) := by
  rw [remove_emitting x s hs]
  exact ⟨rfl, rfl, rfl, rfl⟩

lemma runActs_simple (recEmit : Key → Args → St → Res) :
    ∀ (acts : List Action), (∀ k as, Action.emitA k as ∉ acts) →
      ∀ s : St, s.isEmitting = true →
        ∃ s', runActs recEmit acts s = some (s', [], none) ∧ Keeps s s' := by
  intro acts
  induction acts with
  | nil => intro _ s _; exact ⟨s, rfl, keeps_refl s⟩
  | cons a rest ih =>
    cases a with
    | onA k x =>
      intro hne s hs
      have hne' : ∀ k as, Action.emitA k as ∉ rest :=
        fun k' as hx => hne k' as (List.mem_cons_of_mem _ hx)
      obtain ⟨s', hrun, hk⟩ := ih hne' («on» k x s) (by rw [(on_keeps k x s hs).2.2.1, hs])
      exact ⟨s', by simp only [runActs]; exact hrun, keeps_trans (on_keeps k x s hs) hk⟩
    | onceA k x =>
      intro hne s hs
      have hne' : ∀ k as, Action.emitA k as ∉ rest :=
        fun k' as hx => hne k' as (List.mem_cons_of_mem _ hx)
      obtain ⟨s', hrun, hk⟩ := ih hne' (once k x s) (by rw [(once_keeps k x s hs).2.2.1, hs])
      exact ⟨s', by simp only [runActs]; exact hrun, keeps_trans (once_keeps k x s hs) hk⟩
    | removeA x =>
      intro hne s hs
      have hne' : ∀ k as, Action.emitA k as ∉ rest :=
        fun k' as hx => hne k' as (List.mem_cons_of_mem _ hx)
      obtain ⟨s', hrun, hk⟩ := ih hne' (removeListener x s) (by rw [(remove_keeps x s hs).2.2.1, hs])
      exact ⟨s', by simp only [runActs]; exact hrun, keeps_trans (remove_keeps x s hs) hk⟩
    | emitA k a =>
      intro hne _ _
      exact absurd (List.mem_cons_self _ rest) (hne k a)

lemma runHandler_simple (recEmit : Key → Args → St → Res) (beh : Behavior)
    (hne : NoEmitActs beh) (x : HandlerId) (a : Args) (s : St)
    (hs : s.isEmitting = true) :
    ∃ s', runHandler recEmit beh x a s = some (s', [(x, a)], beh.rejectsWith x a) ∧
      Keeps s s' := by
  obtain ⟨s', hrun, hk⟩ :=
    runActs_simple recEmit (beh.acts x a) (fun k as => hne x a k as) s hs
  refine ⟨s', ?_, hk⟩
  unfold runHandler
  rw [hrun]

lemma runSeq_simple_ok (recEmit : Key → Args → St → Res) (beh : Behavior)
    (hne : NoEmitActs beh) (a : Args) :
    ∀ (l : List HandlerId) (s : St), s.isEmitting = true →
      (∀ x ∈ l, beh.rejectsWith x a = none) →
      ∃ s', runSeq (fun x st => runHandler recEmit beh x a st) l s =
          some (s', l.map (fun x => (x, a)), none) ∧ Keeps s s' := by
  intro l
  induction l with
  | nil => intro s _ _; exact ⟨s, rfl, keeps_refl s⟩
  | cons x xs ih =>
    intro s hs hr
    obtain ⟨sm, hm, hkm⟩ := runHandler_simple recEmit beh hne x a s hs
    rw [hr x (List.mem_cons_self x xs)] at hm
    obtain ⟨s', hrun, hk⟩ := ih sm (by rw [hkm.2.2.1, hs])
      (fun y hy => hr y (List.mem_cons_of_mem x hy))
    refine ⟨s', ?_, keeps_trans hkm hk⟩
    simp only [runSeq]
    rw [hm]
    dsimp only
    rw [hrun]
    simp

lemma runSeq_simple_reject (recEmit : Key → Args → St → Res) (beh : Behavior)
    (hne : NoEmitActs beh) (a : Args) (g : HandlerId) (r : Reason)
    (hg : beh.rejectsWith g a = some r) :
    ∀ (pre post : List HandlerId) (s : St), s.isEmitting = true →
      (∀ x ∈ pre, beh.rejectsWith x a = none) →
      ∃ s', runSeq (fun x st => runHandler recEmit beh x a st) (pre ++ g :: post) s =
          some (s', (pre ++ [g]).map (fun x => (x, a)), some r) := by
  intro pre
  induction pre with
  | nil =>
    intro post s hs _
    obtain ⟨sm, hm, -⟩ := runHandler_simple recEmit beh hne g a s hs
    rw [hg] at hm
    refine ⟨sm, ?_⟩
    simp only [List.nil_append, runSeq]
    rw [hm]
    simp
  | cons x xs ih =>
    intro post s hs hr
    obtain ⟨sm, hm, hkm⟩ := runHandler_simple recEmit beh hne x a s hs
    rw [hr x (List.mem_cons_self x xs)] at hm
    obtain ⟨s', hrun⟩ := ih post sm (by rw [hkm.2.2.1, hs])
      (fun y hy => hr y (List.mem_cons_of_mem x hy))
    refine ⟨s', ?_⟩
    simp only [List.cons_append, runSeq]
    rw [hm]
    dsimp only
    rw [List.append_eq]
    rw [hrun]
    simp

lemma runSeq_success_mem (recEmit : Key → Args → St → Res) (beh : Behavior)
    (a : Args) :
    ∀ (l : List HandlerId) (s s' : St) (t : Trace),
      runSeq (fun x st => runHandler recEmit beh x a st) l s = some (s', t, none) →
      ∀ x ∈ l, (x, a) ∈ t := by
  intro l
  induction l with
  | nil =>
    intro s s' t h x hx
    exact absurd hx (List.not_mem_nil x)
  | cons y ys ih =>
    intro s s' t h x hx
    simp only [runSeq] at h
    cases hS : runHandler recEmit beh y a s with
    | none => rw [hS] at h; exact absurd h (by simp)
    | some v =>
      obtain ⟨sm, tm, rm⟩ := v
      rw [hS] at h
      cases rm with
      | some rr =>
        simp only [Option.some.injEq, Prod.mk.injEq] at h
        exact absurd h.2.2 (by simp)
      | none =>
        dsimp only at h
        cases hR : runSeq (fun x st => runHandler recEmit beh x a st) ys sm with
        | none => rw [hR] at h; exact absurd h (by simp)
        | some w =>
          obtain ⟨s2, t2, r2⟩ := w
          rw [hR] at h
          simp only [Option.some.injEq, Prod.mk.injEq] at h
          obtain ⟨-, ht, hr2⟩ := h
          obtain ⟨t0, ht0⟩ := runHandler_trace recEmit beh y a s sm tm none hS
          rcases List.mem_cons.mp hx with hxy | hxys
          · subst hxy
            rw [← ht, ht0]
            exact List.mem_append_left _ (List.mem_cons_self _ _)
          · rw [← ht]
            exact List.mem_append_right _ (ih _ _ _ (hr2 ▸ hR) x hxys)

end Events

namespace Events

lemma foldl_on_quiet :
    ∀ (l : List (Key × HandlerId)) (s : St), s.isEmitting = false →
      (l.foldl (fun st p => «on» p.1 p.2 st) s).isEmitting = false ∧
      (l.foldl (fun st p => «on» p.1 p.2 st) s).onceHandlers = s.onceHandlers ∧
      (l.foldl (fun st p => «on» p.1 p.2 st) s).toRegisterOn = s.toRegisterOn ∧
      (l.foldl (fun st p => «on» p.1 p.2 st) s).toRegisterOnce = s.toRegisterOnce ∧
      (l.foldl (fun st p => «on» p.1 p.2 st) s).toRemove = s.toRemove := by
  intro l
  induction l with
  | nil => intro s hs; exact ⟨hs, rfl, rfl, rfl, rfl⟩
  | cons p ps ih =>
    intro s hs
    have h1 := on_quiet p.1 p.2 s hs
    simp only [List.foldl_cons]
    obtain ⟨e, o, q1, q2, q3⟩ := ih («on» p.1 p.2 s) (by rw [h1]; exact hs)
    exact ⟨e, by rw [o, h1], by rw [q1, h1], by rw [q2, h1], by rw [q3, h1]⟩

lemma foldl_on_mem (k : Key) (g : HandlerId) :
    ∀ (l : List (Key × HandlerId)) (s : St), s.isEmitting = false →
      ((k, g) ∈ l ∨ g ∈ s.onHandlers k) →
      g ∈ (l.foldl (fun st p => «on» p.1 p.2 st) s).onHandlers k := by
  intro l
  induction l with
  | nil =>
    intro s _ hm
    rcases hm with hm | hm
    · exact absurd hm (List.not_mem_nil _)
    · exact hm
  | cons p ps ih =>
    intro s hs hm
    have h1 := on_quiet p.1 p.2 s hs
    simp only [List.foldl_cons]
    have hflag : («on» p.1 p.2 s).isEmitting = false := by rw [h1]; exact hs
    have hmem : g ∈ («on» p.1 p.2 s).onHandlers k ∨ (k, g) ∈ ps → True := fun _ => trivial
    rcases hm with hm | hm
    · rcases List.mem_cons.mp hm with hp | hps
      · refine ih _ hflag (Or.inr ?_)
        rw [h1]
        dsimp only
        rw [← hp]
        rw [setList_self]
        exact List.mem_append_right _ (List.mem_singleton.mpr rfl)
      · exact ih _ hflag (Or.inl hps)
    · refine ih _ hflag (Or.inr ?_)
      rw [h1]
      dsimp only
      by_cases hk : k = p.1
      · subst hk
        rw [setList_self]
        exact List.mem_append_left _ hm
      · rw [setList_ne _ _ _ _ hk]
        exact hm

lemma foldl_once_quiet :
    ∀ (l : List (Key × HandlerId)) (s : St), s.isEmitting = false →
      (l.foldl (fun st p => once p.1 p.2 st) s).isEmitting = false ∧
      (l.foldl (fun st p => once p.1 p.2 st) s).onHandlers = s.onHandlers ∧
      (l.foldl (fun st p => once p.1 p.2 st) s).toRegisterOn = s.toRegisterOn ∧
      (l.foldl (fun st p => once p.1 p.2 st) s).toRegisterOnce = s.toRegisterOnce ∧
      (l.foldl (fun st p => once p.1 p.2 st) s).toRemove = s.toRemove := by
  intro l
  induction l with
  | nil => intro s hs; exact ⟨hs, rfl, rfl, rfl, rfl⟩
  | cons p ps ih =>
    intro s hs
    have h1 := once_quiet p.1 p.2 s hs
    simp only [List.foldl_cons]
    obtain ⟨e, o, q1, q2, q3⟩ := ih (once p.1 p.2 s) (by rw [h1]; exact hs)
    exact ⟨e, by rw [o, h1], by rw [q1, h1], by rw [q2, h1], by rw [q3, h1]⟩

lemma foldl_once_onceEmpty (k : Key) :
    ∀ (l : List (Key × HandlerId)) (s : St), s.isEmitting = false →
      (∀ x, (k, x) ∉ l) → s.onceHandlers k = [] →
      (l.foldl (fun st p => once p.1 p.2 st) s).onceHandlers k = [] := by
  intro l
  induction l with
  | nil => intro s _ _ h; exact h
  | cons p ps ih =>
    intro s hs hnl hek
    have h1 := once_quiet p.1 p.2 s hs
    simp only [List.foldl_cons]
    refine ih _ (by rw [h1]; exact hs) (fun x hx => hnl x (List.mem_cons_of_mem p hx)) ?_
    rw [h1]
    dsimp only
    by_cases hk : k = p.1
    · exact absurd (show (k, p.2) ∈ p :: ps by rw [hk]; exact List.mem_cons_self _ _)
        (hnl p.2)
    · rw [setList_ne _ _ _ _ hk]
      exact hek

lemma foldl_rm_quiet :
    ∀ (l : List HandlerId) (s : St), s.isEmitting = false →
      (l.foldl (fun st x => removeListener x st) s).isEmitting = false ∧
      (l.foldl (fun st x => removeListener x st) s).toRegisterOn = s.toRegisterOn ∧
      (l.foldl (fun st x => removeListener x st) s).toRegisterOnce = s.toRegisterOnce ∧
      (l.foldl (fun st x => removeListener x st) s).toRemove = s.toRemove := by
  intro l
  induction l with
  | nil => intro s hs; exact ⟨hs, rfl, rfl, rfl⟩
  | cons x xs ih =>
    intro s hs
    have h1 := remove_quiet x s hs
    simp only [List.foldl_cons]
    obtain ⟨e, q1, q2, q3⟩ := ih (removeListener x s) (by rw [h1]; exact hs)
    exact ⟨e, by rw [q1, h1], by rw [q2, h1], by rw [q3, h1]⟩

lemma foldl_rm_absent (g : HandlerId) :
    ∀ (l : List HandlerId) (s : St), s.isEmitting = false →
      (∀ k', g ∉ s.onHandlers k' ∧ g ∉ s.onceHandlers k') →
      ∀ k', g ∉ (l.foldl (fun st x => removeListener x st) s).onHandlers k' ∧
        g ∉ (l.foldl (fun st x => removeListener x st) s).onceHandlers k' := by
  intro l
  induction l with
  | nil => intro s _ h; exact h
  | cons x xs ih =>
    intro s hs habs
    have h1 := remove_quiet x s hs
    simp only [List.foldl_cons]
    refine ih _ (by rw [h1]; exact hs) ?_
    intro k'
    rw [h1]
    dsimp only
    constructor
    · intro hmem
      exact (habs k').1 (List.mem_of_mem_filter hmem)
    · intro hmem
      exact (habs k').2 (List.mem_of_mem_filter hmem)

lemma foldl_rm_notmem (g : HandlerId) :
    ∀ (l : List HandlerId) (s : St), s.isEmitting = false → g ∈ l →
      ∀ k', g ∉ (l.foldl (fun st x => removeListener x st) s).onHandlers k' ∧
        g ∉ (l.foldl (fun st x => removeListener x st) s).onceHandlers k' := by
  intro l
  induction l with
  | nil => intro s _ hg; exact absurd hg (List.not_mem_nil g)
  | cons x xs ih =>
    intro s hs hg
    have h1 := remove_quiet x s hs
    simp only [List.foldl_cons]
    by_cases hgx : g = x
    · subst hgx
      refine foldl_rm_absent g xs _ (by rw [h1]; exact hs) ?_
      intro k'
      rw [h1]
      dsimp only
      constructor
      · intro hmem
        have := List.of_mem_filter hmem
        simp at this
      · intro hmem
        have := List.of_mem_filter hmem
        simp at this
    · rcases List.mem_cons.mp hg with hgg | hgxs
      · exact absurd hgg hgx
      · exact ih _ (by rw [h1]; exact hs) hgxs

lemma foldl_rm_keepmem (g : HandlerId) (k : Key) :
    ∀ (l : List HandlerId) (s : St), s.isEmitting = false → g ∉ l →
      g ∈ s.onHandlers k →
      g ∈ (l.foldl (fun st x => removeListener x st) s).onHandlers k := by
  intro l
  induction l with
  | nil => intro s _ _ hg; exact hg
  | cons x xs ih =>
    intro s hs hgl hg
    have h1 := remove_quiet x s hs
    simp only [List.foldl_cons]
    have hgx : g ≠ x := fun hh => hgl (hh ▸ List.mem_cons_self x xs)
    refine ih _ (by rw [h1]; exact hs) (fun hh => hgl (List.mem_cons_of_mem x hh)) ?_
    rw [h1]
    dsimp only
    refine List.mem_filter.mpr ⟨hg, ?_⟩
    simp [hgx]

lemma foldl_rm_onceEmpty (k : Key) :
    ∀ (l : List HandlerId) (s : St), s.isEmitting = false →
      s.onceHandlers k = [] →
      (l.foldl (fun st x => removeListener x st) s).onceHandlers k = [] := by
  intro l
  induction l with
  | nil => intro s _ h; exact h
  | cons x xs ih =>
    intro s hs hek
    have h1 := remove_quiet x s hs
    simp only [List.foldl_cons]
    refine ih _ (by rw [h1]; exact hs) ?_
    rw [h1]
    dsimp only
    rw [hek]
    rfl

end Events

namespace Events

lemma flushOn_facts (s : St) (hs : s.isEmitting = false) :
    (flushOn s).isEmitting = false ∧
    (flushOn s).onceHandlers = s.onceHandlers ∧
    (flushOn s).toRegisterOn = [] ∧
    (flushOn s).toRegisterOnce = s.toRegisterOnce ∧
    (flushOn s).toRemove = s.toRemove := by
  obtain ⟨e, o, -, q2, q3⟩ := foldl_on_quiet s.toRegisterOn s hs
  exact ⟨e, o, rfl, q2, q3⟩

lemma flushOn_mem (s : St) (hs : s.isEmitting = false) (k : Key) (g : HandlerId)
    (hq : (k, g) ∈ s.toRegisterOn) : g ∈ (flushOn s).onHandlers k :=
  foldl_on_mem k g s.toRegisterOn s hs (Or.inl hq)

lemma flushOn_keepmem (s : St) (hs : s.isEmitting = false) (k : Key)
    (g : HandlerId) (hg : g ∈ s.onHandlers k) : g ∈ (flushOn s).onHandlers k :=
  foldl_on_mem k g s.toRegisterOn s hs (Or.inr hg)

lemma flushOnce_facts (s : St) (hs : s.isEmitting = false) :
    (flushOnce s).isEmitting = false ∧
    (flushOnce s).onHandlers = s.onHandlers ∧
    (flushOnce s).toRegisterOn = s.toRegisterOn ∧
    (flushOnce s).toRegisterOnce = [] ∧
    (flushOnce s).toRemove = s.toRemove := by
  obtain ⟨e, o, q1, -, q3⟩ := foldl_once_quiet s.toRegisterOnce s hs
  exact ⟨e, o, q1, rfl, q3⟩

lemma flushOnce_onceEmpty (s : St) (_hs : s.isEmitting = false) (k : Key)
    (hqe : s.toRegisterOnce = []) (hek : s.onceHandlers k = []) :
    (flushOnce s).onceHandlers k = [] := by
  unfold flushOnce
  rw [hqe]
  exact hek

lemma flushRemove_facts (s : St) (hs : s.isEmitting = false) :
    (flushRemove s).isEmitting = false ∧
    (flushRemove s).toRegisterOn = s.toRegisterOn ∧
    (flushRemove s).toRegisterOnce = s.toRegisterOnce ∧
    (flushRemove s).toRemove = [] := by
  obtain ⟨e, q1, q2, -⟩ := foldl_rm_quiet s.toRemove s hs
  exact ⟨e, q1, q2, rfl⟩

lemma flushRemove_notmem (s : St) (hs : s.isEmitting = false) (g : HandlerId)
    (hg : g ∈ s.toRemove) :
    ∀ k', g ∉ (flushRemove s).onHandlers k' ∧ g ∉ (flushRemove s).onceHandlers k' :=
  foldl_rm_notmem g s.toRemove s hs hg

lemma flushRemove_keepmem (s : St) (hs : s.isEmitting = false) (g : HandlerId)
    (k : Key) (hgl : g ∉ s.toRemove) (hg : g ∈ s.onHandlers k) :
    g ∈ (flushRemove s).onHandlers k :=
  foldl_rm_keepmem g k s.toRemove s hs hgl hg

lemma flushRemove_onceEmpty (s : St) (hs : s.isEmitting = false) (k : Key)
    (hek : s.onceHandlers k = []) : (flushRemove s).onceHandlers k = [] :=
  foldl_rm_onceEmpty k s.toRemove s hs hek

lemma flush_facts (s : St) (hs : s.isEmitting = false) :
    (flush s).isEmitting = false ∧
    (flush s).toRegisterOn = [] ∧
    (flush s).toRegisterOnce = [] ∧
    (flush s).toRemove = [] := by
  obtain ⟨eA, -, qA1, -, -⟩ := flushOn_facts s hs
  obtain ⟨eB, -, qB1, qB2, -⟩ := flushOnce_facts (flushOn s) eA
  obtain ⟨eC, qC1, qC2, qC3⟩ := flushRemove_facts (flushOnce (flushOn s)) eB
  refine ⟨eC, ?_, ?_, qC3⟩
  · rw [show (flush s).toRegisterOn = (flushRemove (flushOnce (flushOn s))).toRegisterOn from rfl,
      qC1, qB1, qA1]
  · rw [show (flush s).toRegisterOnce = (flushRemove (flushOnce (flushOn s))).toRegisterOnce from rfl,
      qC2, qB2]

lemma flush_mem_on (s : St) (hs : s.isEmitting = false) (k : Key) (g : HandlerId)
    (hq : (k, g) ∈ s.toRegisterOn) (hr : g ∉ s.toRemove) :
    g ∈ (flush s).onHandlers k := by
  obtain ⟨eA, -, -, -, rA⟩ := flushOn_facts s hs
  obtain ⟨eB, oB, -, -, rB⟩ := flushOnce_facts (flushOn s) eA
  have h1 : g ∈ (flushOn s).onHandlers k := flushOn_mem s hs k g hq
  have h2 : g ∈ (flushOnce (flushOn s)).onHandlers k := by rw [oB]; exact h1
  have hr2 : g ∉ (flushOnce (flushOn s)).toRemove := by rw [rB, rA]; exact hr
  exact flushRemove_keepmem (flushOnce (flushOn s)) eB g k hr2 h2

lemma flush_removed (s : St) (hs : s.isEmitting = false) (g : HandlerId)
    (hg : g ∈ s.toRemove) :
    ∀ k', g ∉ (flush s).onHandlers k' ∧ g ∉ (flush s).onceHandlers k' := by
  obtain ⟨eA, -, -, -, rA⟩ := flushOn_facts s hs
  obtain ⟨eB, -, -, -, rB⟩ := flushOnce_facts (flushOn s) eA
  have hg2 : g ∈ (flushOnce (flushOn s)).toRemove := by rw [rB, rA]; exact hg
  exact flushRemove_notmem (flushOnce (flushOn s)) eB g hg2

lemma flush_once_empty (s : St) (hs : s.isEmitting = false) (k : Key)
    (hek : s.onceHandlers k = []) (hqe : s.toRegisterOnce = []) :
    (flush s).onceHandlers k = [] := by
  obtain ⟨eA, oA, -, qA2, -⟩ := flushOn_facts s hs
  have h1 : (flushOn s).onceHandlers k = [] := by rw [oA]; exact hek
  have h2 : (flushOn s).toRegisterOnce = [] := by rw [qA2]; exact hqe
  obtain ⟨eB, -, -, -, -⟩ := flushOnce_facts (flushOn s) eA
  have h3 : (flushOnce (flushOn s)).onceHandlers k = [] :=
    flushOnce_onceEmpty (flushOn s) eA k h2 h1
  exact flushRemove_onceEmpty (flushOnce (flushOn s)) eB k h3

lemma flush_isEmitting (s : St) (hs : s.isEmitting = false) :
    (flush s).isEmitting = false := (flush_facts s hs).1

end Events

namespace Events

lemma emitStep_success (recEmit : Key → Args → St → Res) (beh : Behavior)
    (k : Key) (a : Args) (s s' : St) (t : Trace)
    (h : emitStep recEmit beh k a s = some (s', t, none)) :
    ∃ s2 t1 s3 t2,
      runSeq (fun x st => runHandler recEmit beh x a st) (s.onHandlers k)
          ({ s with isEmitting := true } : St) = some (s2, t1, none) ∧
      runSeq (fun x st => runHandler recEmit beh x a st) (s2.onceHandlers k) s2 =
          some (s3, t2, none) ∧
      t = t1 ++ t2 ∧
      (s.isEmitting = true →
        s' = ({ s3 with onceHandlers := setList s3.onceHandlers k [], isEmitting := s.isEmitting } : St)) ∧
      (s.isEmitting = false →
        s' = flush ({ s3 with onceHandlers := setList s3.onceHandlers k [], isEmitting := s.isEmitting } : St)) := by
  unfold emitStep at h
  dsimp only at h
  cases hP1 : runSeq (fun x st => runHandler recEmit beh x a st)
      (s.onHandlers k) ({ s with isEmitting := true } : St) with
  | none => rw [hP1] at h; exact absurd h (by simp)
  | some v =>
    obtain ⟨s2, t1, r1⟩ := v
    rw [hP1] at h
    cases r1 with
    | some rr =>
      simp only [Option.some.injEq, Prod.mk.injEq] at h
      exact absurd h.2.2 (by simp)
    | none =>
      dsimp only at h
      cases hP2 : runSeq (fun x st => runHandler recEmit beh x a st)
          (s2.onceHandlers k) s2 with
      | none => rw [hP2] at h; exact absurd h (by simp)
      | some w =>
        obtain ⟨s3, t2, r2⟩ := w
        rw [hP2] at h
        cases r2 with
        | some rr =>
          simp only [Option.some.injEq, Prod.mk.injEq] at h
          exact absurd h.2.2 (by simp)
        | none =>
          by_cases hw : s.isEmitting = true
          · simp only [hw, if_true, Option.some.injEq, Prod.mk.injEq] at h
            obtain ⟨hst, ht, -⟩ := h
            subst ht
            subst hst
            refine ⟨s2, t1, s3, t2, rfl, hP2, rfl, fun _ => ?_, fun hf => ?_⟩
            · rw [hw]
            · rw [hf] at hw; exact absurd hw (by simp)
          · have hw' : s.isEmitting = false := Bool.eq_false_iff.mpr hw
            simp only [hw', Bool.false_eq_true, if_false, Option.some.injEq,
              Prod.mk.injEq] at h
            obtain ⟨hst, ht, -⟩ := h
            subst ht
            subst hst
            refine ⟨s2, t1, s3, t2, rfl, hP2, rfl, fun htr => ?_, fun _ => ?_⟩
            · rw [htr] at hw'; exact absurd hw' (by simp)
            · rw [hw']

lemma emitStep_reject (recEmit : Key → Args → St → Res) (beh : Behavior)
    (k : Key) (a : Args) (s s' : St) (t : Trace) (rr : Reason)
    (h : emitStep recEmit beh k a s = some (s', t, some rr)) :
    runSeq (fun x st => runHandler recEmit beh x a st) (s.onHandlers k)
        ({ s with isEmitting := true } : St) = some (s', t, some rr) ∨
    (∃ s2 t1 t2,
      runSeq (fun x st => runHandler recEmit beh x a st) (s.onHandlers k)
          ({ s with isEmitting := true } : St) = some (s2, t1, none) ∧
      runSeq (fun x st => runHandler recEmit beh x a st) (s2.onceHandlers k) s2 =
          some (s', t2, some rr) ∧
      t = t1 ++ t2) := by
  unfold emitStep at h
  dsimp only at h
  cases hP1 : runSeq (fun x st => runHandler recEmit beh x a st)
      (s.onHandlers k) ({ s with isEmitting := true } : St) with
  | none => rw [hP1] at h; exact absurd h (by simp)
  | some v =>
    obtain ⟨s2, t1, r1⟩ := v
    rw [hP1] at h
    cases r1 with
    | some r0 =>
      simp only [Option.some.injEq, Prod.mk.injEq] at h
      obtain ⟨hst, ht, hr⟩ := h
      subst hst
      subst ht
      subst hr
      exact Or.inl rfl
    | none =>
      dsimp only at h
      cases hP2 : runSeq (fun x st => runHandler recEmit beh x a st)
          (s2.onceHandlers k) s2 with
      | none => rw [hP2] at h; exact absurd h (by simp)
      | some w =>
        obtain ⟨s3, t2, r2⟩ := w
        rw [hP2] at h
        cases r2 with
        | some r0 =>
          simp only [Option.some.injEq, Prod.mk.injEq] at h
          obtain ⟨hst, ht, hr⟩ := h
          subst hst
          subst ht
          subst hr
          exact Or.inr ⟨s2, t1, t2, rfl, hP2, rfl⟩
        | none =>
          by_cases hw : s.isEmitting = true
          · simp only [hw, if_true, Option.some.injEq, Prod.mk.injEq] at h
            exact absurd h.2.2 (by simp)
          · have hw' : s.isEmitting = false := Bool.eq_false_iff.mpr hw
            simp only [hw', Bool.false_eq_true, if_false, Option.some.injEq,
              Prod.mk.injEq] at h
            exact absurd h.2.2 (by simp)

end Events

namespace Events

lemma emit_success_flag (beh : Behavior) (n : Nat) (k : Key) (a : Args)
    (s s' : St) (t : Trace) (h : emit beh n k a s = some (s', t, none)) :
    s'.isEmitting = s.isEmitting := by
  cases n with
  | zero => rw [emit_zero] at h; exact absurd h (by simp)
  | succ m =>
    rw [emit_succ] at h
    obtain ⟨s2, t1, s3, t2, hP1, hP2, -, hT, hFl⟩ :=
      emitStep_success (emit beh m) beh k a s s' t h
    by_cases hw : s.isEmitting = true
    · rw [hT hw, hw]
    · have hw' : s.isEmitting = false := Bool.eq_false_iff.mpr hw
      rw [hFl hw', hw']
      exact flush_isEmitting _ rfl

lemma emit_reject_flag (beh : Behavior) (n : Nat) (k : Key) (a : Args)
    (s s' : St) (t : Trace) (r : Reason)
    (h : emit beh n k a s = some (s', t, some r)) : s'.isEmitting = true := by
  cases n with
  | zero => rw [emit_zero] at h; exact absurd h (by simp)
  | succ m =>
    rw [emit_succ] at h
    have hstep : ∀ x st s'' t'' r'', st.isEmitting = true →
        runHandler (emit beh m) beh x a st = some (s'', t'', r'') → Frame st s'' :=
      fun x st s'' t'' r'' he hh =>
        runHandler_frame (emit beh m) beh (emit_frame beh m) x a st s'' t'' r'' he hh
    rcases emitStep_reject (emit beh m) beh k a s s' t r h with hP | ⟨s2, t1, t2, hP1, hP2, -⟩
    · exact (runSeq_frame _ hstep _ _ _ _ _ rfl hP).1
    · have hf1 : Frame ({ s with isEmitting := true } : St) s2 :=
        runSeq_frame _ hstep _ _ _ _ _ rfl hP1
      exact (runSeq_frame _ hstep _ _ _ _ _ hf1.1 hP2).1

lemma emit_success_queues (beh : Behavior) (n : Nat) (k : Key) (a : Args)
    (s s' : St) (t : Trace) (hs : s.isEmitting = false)
    (h : emit beh n k a s = some (s', t, none)) :
    s'.toRegisterOn = [] ∧ s'.toRegisterOnce = [] ∧ s'.toRemove = [] := by
  cases n with
  | zero => rw [emit_zero] at h; exact absurd h (by simp)
  | succ m =>
    rw [emit_succ] at h
    obtain ⟨s2, t1, s3, t2, hP1, hP2, -, -, hFl⟩ :=
      emitStep_success (emit beh m) beh k a s s' t h
    rw [hFl hs]
    obtain ⟨-, q1, q2, q3⟩ := flush_facts
      ({ s3 with onceHandlers := setList s3.onceHandlers k [], isEmitting := s.isEmitting } : St) hs
    exact ⟨q1, q2, q3⟩

lemma emit_flush_mem (beh : Behavior) (n : Nat) (k' : Key) (a : Args)
    (s s' : St) (t : Trace) (k : Key) (g : HandlerId)
    (hs : s.isEmitting = false) (hq : (k, g) ∈ s.toRegisterOn)
    (hr : g ∉ s.toRemove) (hA : ActsNoRemove beh g)
    (h : emit beh n k' a s = some (s', t, none)) : g ∈ s'.onHandlers k := by
  cases n with
  | zero => rw [emit_zero] at h; exact absurd h (by simp)
  | succ m =>
    rw [emit_succ] at h
    obtain ⟨s2, t1, s3, t2, hP1, hP2, -, -, hFl⟩ :=
      emitStep_success (emit beh m) beh k' a s s' t h
    have hstep : ∀ x st s'' t'' r'', st.isEmitting = true →
        runHandler (emit beh m) beh x a st = some (s'', t'', r'') → Frame st s'' :=
      fun x st s'' t'' r'' he hh =>
        runHandler_frame (emit beh m) beh (emit_frame beh m) x a st s'' t'' r'' he hh
    have hf1 : Frame ({ s with isEmitting := true } : St) s2 :=
      runSeq_frame _ hstep _ _ _ _ _ rfl hP1
    have hf2 : Frame s2 s3 := runSeq_frame _ hstep _ _ _ _ _ hf1.1 hP2
    obtain ⟨l1, hq1⟩ := hf1.2.2.2.1
    obtain ⟨l2, hq2⟩ := hf2.2.2.2.1
    have hmem3 : (k, g) ∈ s3.toRegisterOn := by
      rw [hq2, hq1]
      exact List.mem_append_left _ (List.mem_append_left _ hq)
    have hrm1 : g ∈ s2.toRemove → g ∈ s.toRemove :=
      runSeq_remfree (emit beh m) beh g (emit_frame beh m)
        (emit_remfree beh g hA m) hA a (s.onHandlers k')
        ({ s with isEmitting := true } : St) s2 t1 none rfl hP1
    have hrm2 : g ∈ s3.toRemove → g ∈ s2.toRemove :=
      runSeq_remfree (emit beh m) beh g (emit_frame beh m)
        (emit_remfree beh g hA m) hA a (s2.onceHandlers k') s2 s3 t2 none hf1.1 hP2
    have hnr3 : g ∉ s3.toRemove := fun hx => hr (hrm1 (hrm2 hx))
    rw [hFl hs]
    exact flush_mem_on
      ({ s3 with onceHandlers := setList s3.onceHandlers k' [], isEmitting := s.isEmitting } : St)
      hs k g hmem3 hnr3

lemma emit_flush_removed (beh : Behavior) (n : Nat) (k' : Key) (a : Args)
    (s s' : St) (t : Trace) (g : HandlerId)
    (hs : s.isEmitting = false) (hg : g ∈ s.toRemove)
    (h : emit beh n k' a s = some (s', t, none)) :
    ∀ kk, g ∉ s'.onHandlers kk ∧ g ∉ s'.onceHandlers kk := by
  cases n with
  | zero => rw [emit_zero] at h; exact absurd h (by simp)
  | succ m =>
    rw [emit_succ] at h
    obtain ⟨s2, t1, s3, t2, hP1, hP2, -, -, hFl⟩ :=
      emitStep_success (emit beh m) beh k' a s s' t h
    have hstep : ∀ x st s'' t'' r'', st.isEmitting = true →
        runHandler (emit beh m) beh x a st = some (s'', t'', r'') → Frame st s'' :=
      fun x st s'' t'' r'' he hh =>
        runHandler_frame (emit beh m) beh (emit_frame beh m) x a st s'' t'' r'' he hh
    have hf1 : Frame ({ s with isEmitting := true } : St) s2 :=
      runSeq_frame _ hstep _ _ _ _ _ rfl hP1
    have hf2 : Frame s2 s3 := runSeq_frame _ hstep _ _ _ _ _ hf1.1 hP2
    obtain ⟨l1, hq1⟩ := hf1.2.2.2.2.2
    obtain ⟨l2, hq2⟩ := hf2.2.2.2.2.2
    have hmem3 : g ∈ s3.toRemove := by
      rw [hq2, hq1]
      exact List.mem_append_left _ (List.mem_append_left _ hg)
    rw [hFl hs]
    exact flush_removed
      ({ s3 with onceHandlers := setList s3.onceHandlers k' [], isEmitting := s.isEmitting } : St)
      hs g hmem3

lemma emit_invoked (beh : Behavior) (n : Nat) (k : Key) (a : Args)
    (s s' : St) (t : Trace) (g : HandlerId) (hg : g ∈ s.onHandlers k)
    (h : emit beh n k a s = some (s', t, none)) : (g, a) ∈ t := by
  cases n with
  | zero => rw [emit_zero] at h; exact absurd h (by simp)
  | succ m =>
    rw [emit_succ] at h
    obtain ⟨s2, t1, s3, t2, hP1, hP2, ht, -, -⟩ :=
      emitStep_success (emit beh m) beh k a s s' t h
    rw [ht]
    exact List.mem_append_left _
      (runSeq_success_mem (emit beh m) beh a _ _ _ _ hP1 g hg)

end Events

namespace Events

lemma runSeq_inert (recEmit : Key → Args → St → Res) (beh : Behavior)
    (hacts : ∀ x a', beh.acts x a' = []) (a : Args) :
    ∀ (l : List HandlerId) (s : St), (∀ x ∈ l, beh.rejectsWith x a = none) →
      runSeq (fun x st => runHandler recEmit beh x a st) l s =
        some (s, l.map (fun x => (x, a)), none) := by
  intro l
  induction l with
  | nil => intro s _; rfl
  | cons x xs ih =>
    intro s hok
    have hx : runHandler recEmit beh x a s = some (s, [(x, a)], none) := by
      unfold runHandler
      rw [hacts x a]
      dsimp only [runActs]
      rw [hok x (List.mem_cons_self x xs)]
    simp only [runSeq]
    rw [hx]
    dsimp only
    rw [ih s (fun y hy => hok y (List.mem_cons_of_mem x hy))]
    simp

lemma emit_simple (beh : Behavior) (hne : NoEmitActs beh) (n : Nat) (k : Key)
    (a : Args) (s : St)
    (hok : ∀ x ∈ s.onHandlers k ++ s.onceHandlers k, beh.rejectsWith x a = none)
    (hqe : s.toRegisterOnce = []) :
    ∃ s', emit beh (n + 1) k a s =
        some (s', (s.onHandlers k ++ s.onceHandlers k).map (fun x => (x, a)), none) ∧
      s'.onceHandlers k = [] := by
  obtain ⟨s2, hP1, hK1⟩ := runSeq_simple_ok (emit beh n) beh hne a
    (s.onHandlers k) ({ s with isEmitting := true } : St) rfl
    (fun x hx => hok x (List.mem_append_left _ hx))
  have honce2 : s2.onceHandlers = s.onceHandlers := hK1.2.1
  have hflag2 : s2.isEmitting = true := hK1.2.2.1
  obtain ⟨s3, hP2, hK2⟩ := runSeq_simple_ok (emit beh n) beh hne a
    (s2.onceHandlers k) s2 hflag2
    (fun x hx => hok x (List.mem_append_right _ ((congrFun honce2 k) ▸ hx)))
  have hq3 : s3.toRegisterOnce = [] := by
    rw [hK2.2.2.2, hK1.2.2.2]
    exact hqe
  have htr : (s.onHandlers k).map (fun x => (x, a)) ++
      (s2.onceHandlers k).map (fun x => (x, a)) =
      (s.onHandlers k ++ s.onceHandlers k).map (fun x => (x, a)) := by
    rw [congrFun honce2 k, List.map_append]
  by_cases hw : s.isEmitting = true
  · refine ⟨({ s3 with onceHandlers := setList s3.onceHandlers k [], isEmitting := s.isEmitting } : St), ?_, ?_⟩
    · rw [emit_succ]
      unfold emitStep
      dsimp only
      rw [hP1]
      dsimp only
      rw [hP2]
      dsimp only
      rw [if_pos hw, htr]
    · exact setList_self s3.onceHandlers k []
  · have hw' : s.isEmitting = false := Bool.eq_false_iff.mpr hw
    refine ⟨flush ({ s3 with onceHandlers := setList s3.onceHandlers k [], isEmitting := s.isEmitting } : St), ?_, ?_⟩
    · rw [emit_succ]
      unfold emitStep
      dsimp only
      rw [hP1]
      dsimp only
      rw [hP2]
      dsimp only
      rw [if_neg hw, htr]
    · exact flush_once_empty
        ({ s3 with onceHandlers := setList s3.onceHandlers k [], isEmitting := s.isEmitting } : St)
        hw' k (setList_self s3.onceHandlers k []) hq3

lemma emit_simple_reject (beh : Behavior) (hne : NoEmitActs beh) (n : Nat)
    (k : Key) (a : Args) (s : St) (pre post : List HandlerId) (g : HandlerId)
    (r : Reason)
    (hsplit : s.onHandlers k ++ s.onceHandlers k = pre ++ g :: post)
    (hpre : ∀ x ∈ pre, beh.rejectsWith x a = none)
    (hrej : beh.rejectsWith g a = some r) :
    ∃ s', emit beh (n + 1) k a s =
        some (s', (pre ++ [g]).map (fun x => (x, a)), some r) := by
  rcases List.append_eq_append_iff.mp hsplit with ⟨a', hc, hb⟩ | ⟨c', ha, hd⟩
  · -- pre = s.onHandlers k ++ a' and s.onceHandlers k = a' ++ g :: post
    obtain ⟨s2, hP1, hK1⟩ := runSeq_simple_ok (emit beh n) beh hne a
      (s.onHandlers k) ({ s with isEmitting := true } : St) rfl
      (fun x hx => hpre x (by rw [hc]; exact List.mem_append_left _ hx))
    have honce2 : s2.onceHandlers = s.onceHandlers := hK1.2.1
    have hflag2 : s2.isEmitting = true := hK1.2.2.1
    obtain ⟨s3, hP2⟩ := runSeq_simple_reject (emit beh n) beh hne a g r hrej
      a' post s2 hflag2
      (fun x hx => hpre x (by rw [hc]; exact List.mem_append_right _ hx))
    refine ⟨s3, ?_⟩
    rw [emit_succ]
    unfold emitStep
    dsimp only
    rw [hP1]
    dsimp only
    rw [show s2.onceHandlers k = a' ++ g :: post from by rw [congrFun honce2 k]; exact hb]
    rw [hP2]
    dsimp only
    rw [hc]
    simp [List.map_append, List.append_assoc]
  · -- s.onHandlers k = pre ++ c' and g :: post = c' ++ s.onceHandlers k
    cases c' with
    | nil =>
      -- g is the head of the one-shot list; the whole persistent list is pre
      simp only [List.append_nil] at ha
      simp only [List.nil_append] at hd
      obtain ⟨s2, hP1, hK1⟩ := runSeq_simple_ok (emit beh n) beh hne a
        (s.onHandlers k) ({ s with isEmitting := true } : St) rfl
        (fun x hx => hpre x (ha ▸ hx))
      have honce2 : s2.onceHandlers = s.onceHandlers := hK1.2.1
      have hflag2 : s2.isEmitting = true := hK1.2.2.1
      obtain ⟨s3, hP2⟩ := runSeq_simple_reject (emit beh n) beh hne a g r hrej
        [] post s2 hflag2 (by intro x hx; exact absurd hx (List.not_mem_nil x))
      refine ⟨s3, ?_⟩
      rw [emit_succ]
      unfold emitStep
      dsimp only
      rw [hP1]
      dsimp only
      rw [show s2.onceHandlers k = [] ++ g :: post from by
        rw [congrFun honce2 k, ← hd]
        simp]
      rw [hP2]
      dsimp only
      rw [ha]
      simp [List.map_append]
    | cons g' c'' =>
      -- g sits inside the persistent list
      rw [List.cons_append] at hd
      obtain ⟨hg', hpost⟩ := List.cons.inj hd
      subst hg'
      obtain ⟨s2, hP1⟩ := runSeq_simple_reject (emit beh n) beh hne a g r hrej
        pre c'' ({ s with isEmitting := true } : St) rfl hpre
      refine ⟨s2, ?_⟩
      rw [emit_succ]
      unfold emitStep
      dsimp only
      rw [show s.onHandlers k = pre ++ g :: c'' from ha]
      rw [hP1]

lemma apiStep_frame (beh : Behavior) {s s' : St} (hs : s.isEmitting = true)
    (h : ApiStep beh s s') : Frame s s' := by
  cases h with
  | onStep k x s => exact on_frame k x s hs
  | onceStep k x s => exact once_frame k x s hs
  | removeStep x s => exact remove_frame x s hs
  | emitApi n k a s s' t r he => exact emit_frame beh n k a s s' t r hs he

lemma reach_frame (beh : Behavior) {s s' : St} (hs : s.isEmitting = true)
    (h : Relation.ReflTransGen (ApiStep beh) s s') : Frame s s' := by
  induction h with
  | refl => exact frame_refl s hs
  | tail hab hbc ih => exact frame_trans ih (apiStep_frame beh ih.1 hbc)

end Events

namespace Events

lemma flush_empty_regs (s : St) (hq1 : s.toRegisterOn = [])
    (hq2 : s.toRegisterOnce = []) (hq3 : s.toRemove = []) :
    (flush s).onHandlers = s.onHandlers ∧
    (flush s).onceHandlers = s.onceHandlers := by
  unfold flush flushOn flushOnce flushRemove
  rw [hq1]
  dsimp only [List.foldl_nil]
  rw [hq2]
  dsimp only [List.foldl_nil]
  rw [hq3]
  dsimp only [List.foldl_nil]
  exact ⟨rfl, rfl⟩

lemma emit_inert (beh : Behavior) (hacts : ∀ x a', beh.acts x a' = [])
    (n : Nat) (k : Key) (a : Args) (s : St)
    (hok : ∀ x ∈ s.onHandlers k ++ s.onceHandlers k, beh.rejectsWith x a = none)
    (hq1 : s.toRegisterOn = []) (hq2 : s.toRegisterOnce = [])
    (hq3 : s.toRemove = []) :
    ∃ s', emit beh (n + 1) k a s =
        some (s', (s.onHandlers k ++ s.onceHandlers k).map (fun x => (x, a)), none) ∧
      s'.onHandlers = s.onHandlers ∧ s'.onceHandlers k = [] ∧
      (∀ k'', k'' ≠ k → s'.onceHandlers k'' = s.onceHandlers k'') := by
  have hP1 := runSeq_inert (emit beh n) beh hacts a (s.onHandlers k)
    ({ s with isEmitting := true } : St)
    (fun x hx => hok x (List.mem_append_left _ hx))
  have hP2 := runSeq_inert (emit beh n) beh hacts a (s.onceHandlers k)
    ({ s with isEmitting := true } : St)
    (fun x hx => hok x (List.mem_append_right _ hx))
  by_cases hw : s.isEmitting = true
  · refine ⟨({ s with onceHandlers := setList s.onceHandlers k [] } : St), ?_, rfl, setList_self _ _ _, fun k'' hk => setList_ne _ _ _ _ hk⟩
    rw [emit_succ]
    unfold emitStep
    dsimp only
    rw [hP1]
    dsimp only
    rw [hP2]
    dsimp only
    rw [if_pos hw, List.map_append]
  · have hw' : s.isEmitting = false := Bool.eq_false_iff.mpr hw
    have hregs := flush_empty_regs
      ({ s with onceHandlers := setList s.onceHandlers k [], isEmitting := s.isEmitting } : St)
      hq1 hq2 hq3
    refine ⟨flush ({ s with onceHandlers := setList s.onceHandlers k [], isEmitting := s.isEmitting } : St),
      ?_, hregs.1, ?_, ?_⟩
    · rw [emit_succ]
      unfold emitStep
      dsimp only
      rw [hP1]
      dsimp only
      rw [hP2]
      dsimp only
      rw [if_neg hw, List.map_append]
    · rw [congrFun hregs.2 k]
      exact setList_self _ _ _
    · intro k'' hk
      rw [congrFun hregs.2 k'']
      exact setList_ne _ _ _ _ hk

lemma waitForResult_map (w : HandlerId) (a : Args) :
    ∀ l : List HandlerId, w ∈ l →
      waitForResult w (l.map (fun x => (x, a))) = some a := by
  intro l
  induction l with
  | nil => intro hw; exact absurd hw (List.not_mem_nil w)
  | cons x xs ih =>
    intro hw
    by_cases hxw : x == w
    · simp [waitForResult, List.find?, hxw]
    · have hwxs : w ∈ xs := by
        rcases List.mem_cons.mp hw with hh | hh
        · exact absurd (show (x == w) = true by simp [hh]) hxw
        · exact hh
      have := ih hwxs
      simp only [waitForResult, List.map_cons, List.find?] at this ⊢
      rw [show ((x, a).1 == w) = false from by simpa using hxw]
      exact this

end Events

namespace Events

lemma emit_reject_partial (beh : Behavior) (n : Nat) (k : Key) (a : Args)
    (s s' : St) (t : Trace) (r : Reason)
    (h : emit beh n k a s = some (s', t, some r)) :
    Frame ({ s with isEmitting := true } : St) s' := by
  cases n with
  | zero => rw [emit_zero] at h; exact absurd h (by simp)
  | succ m =>
    rw [emit_succ] at h
    have hstep : ∀ x st s'' t'' r'', st.isEmitting = true →
        runHandler (emit beh m) beh x a st = some (s'', t'', r'') → Frame st s'' :=
      fun x st s'' t'' r'' he hh =>
        runHandler_frame (emit beh m) beh (emit_frame beh m) x a st s'' t'' r'' he hh
    rcases emitStep_reject (emit beh m) beh k a s s' t r h with hP | ⟨s2, t1, t2, hP1, hP2, -⟩
    · exact runSeq_frame _ hstep _ _ _ _ _ rfl hP
    · have hf1 : Frame ({ s with isEmitting := true } : St) s2 :=
        runSeq_frame _ hstep _ _ _ _ _ rfl hP1
      exact frame_trans hf1 (runSeq_frame _ hstep _ _ _ _ _ hf1.1 hP2)

/-- C1 counterexample: with one-shot handlers `[0, 1]` registered for `"x"`
and handler `1` re-emitting `"x"` (with args `[7]`) from inside its body, the
call `emit("x", [5])` rejects nowhere, yet its invocation sequence is
`0,[5]; 1,[5]; 0,[7]; 1,[7]` — each one-shot handler runs twice — instead of
the claimed "exactly the one-shot handlers registered at the start, in
registration order" (`0,[5]; 1,[5]`). -/
theorem claim1_counterexample :
    emitTr behA 3 "x" [5] sOnceX =
      some [(0, [5]), (1, [5]), (0, [7]), (1, [7])] ∧
    emitRes behA 3 "x" [5] sOnceX = some none ∧
    some [(0, [5]), (1, [5]), (0, [7]), (1, [7])] ≠
      some [((0 : HandlerId), ([5] : Args)), (1, [5])] := by
  refine ⟨by decide, by decide, by decide⟩

/-- C1 (amended): for every call `emit(k, args)` in which no handler rejects,
no handler issues a nested `emit`, and the one-shot deferral queue is empty,
`emit` resolves, invokes exactly the persistent handlers registered for `k`
at the start of the call in registration order, then exactly the one-shot
handlers registered for `k` in registration order, each awaited sequentially
(the trace is exactly the concatenation of the two registration lists, each
paired with the call's argument list), and at the end of the call the
one-shot list for `k` is empty. -/
theorem claim1_order (beh : Behavior) (n : Nat) (k : Key) (a : Args) (s : St)
    (hne : NoEmitActs beh)
    (hok : ∀ x ∈ s.onHandlers k ++ s.onceHandlers k, beh.rejectsWith x a = none)
    (hqe : s.toRegisterOnce = []) :
    ∃ s', emit beh (n + 1) k a s =
        some (s', (s.onHandlers k ++ s.onceHandlers k).map (fun x => (x, a)), none) ∧
      s'.onceHandlers k = [] :=
  emit_simple beh hne n k a s hok hqe

/-- C1 witness: two persistent handlers `[0, 1]` and a one-shot handler `[2]`
on `"x"`; `emit("x", [2])` invokes `0, 1, 2` in order and clears the one-shot
list. -/
theorem claim1_order_witness :
    ∃ s', emit behNil 1 "x" [2] sAB =
        some (s', (sAB.onHandlers "x" ++ sAB.onceHandlers "x").map (fun x => (x, [2])), none) ∧
      s'.onceHandlers "x" = [] :=
  claim1_order behNil 0 "x" [2] sAB
    (fun _ _ _ _ hmem => absurd hmem (List.not_mem_nil _))
    (fun _ _ => rfl) rfl

/-- C2 (code bug): the source's `once` pushes a mid-dispatch registration onto
`toRegisterOn` instead of `toRegisterOnce`, so a one-shot handler registered
while the dispatch flag is raised is flushed into the persistent registry and
invoked by every later emission of its key, contradicting the documented
"will only be called once.  The handler will be removed after it is called."
Here handler `5` calls `once("x", 7)` during `emit("x", [0])`; afterwards `7`
sits in the persistent registry (`onHandlers "x" = [5, 7]`, one-shot list
empty), and both of the next two emissions of `"x"` invoke handler `7`. -/
theorem claim2_once_bug :
    ((emitSt behB 2 "x" [0] sB).map
      (fun s1 => (s1.onHandlers "x", s1.onceHandlers "x", s1.toRegisterOn))) =
      some ([5, 7], [], []) ∧
    ((emitSt behB 2 "x" [0] sB).bind (emitTr behB 2 "x" [1])) =
      some [(5, [1]), (7, [1])] ∧
    (((emitSt behB 2 "x" [0] sB).bind (emitSt behB 2 "x" [1])).bind
      (emitTr behB 2 "x" [2])) = some [(5, [2]), (7, [2])] := by
  refine ⟨by decide, by decide, by decide⟩

/-- C10 counterexample: with empty deferral queues, no handler performing any
bus call, and the sole one-shot handler `0` for `"x"` rejecting, `emit("x")`
leaves the one-shot entry for `"x"` in place (`[0]`, not deleted), contrary
to the claim that only the one-shot entry for `k` is deleted. -/
theorem claim10_counterexample :
    (emit behR 1 "x" [] sR).map (fun x => (x.1.onceHandlers "x", x.2.2)) =
      some ([0], some 1) ∧
    ([0] : List HandlerId) ≠ [] := by
  refine ⟨by decide, by decide⟩

/-- C10 (amended): for every `emit(k, args)` in which no invoked handler
calls `on`, `once`, `removeListener` or `emit` on the bus, no handler
rejects, and the deferral queues are empty at the start, the emission
resolves, the persistent registry is unchanged for every event key, the
one-shot list for `k` is deleted, and the one-shot lists of every other key
are unchanged. -/
theorem claim10_frame (beh : Behavior) (n : Nat) (k : Key) (a : Args) (s : St)
    (hacts : ∀ x a', beh.acts x a' = [])
    (hok : ∀ x ∈ s.onHandlers k ++ s.onceHandlers k, beh.rejectsWith x a = none)
    (hq1 : s.toRegisterOn = []) (hq2 : s.toRegisterOnce = [])
    (hq3 : s.toRemove = []) :
    ∃ s', emit beh (n + 1) k a s =
        some (s', (s.onHandlers k ++ s.onceHandlers k).map (fun x => (x, a)), none) ∧
      s'.onHandlers = s.onHandlers ∧ s'.onceHandlers k = [] ∧
      (∀ k'', k'' ≠ k → s'.onceHandlers k'' = s.onceHandlers k'') :=
  emit_inert beh hacts n k a s hok hq1 hq2 hq3

/-- C10 witness: persistent `[0, 1]` and one-shot `[2]` on `"x"`, empty
queues; `emit("x", [3])` leaves the persistent registry untouched, deletes
the one-shot entry for `"x"`, and leaves every other one-shot list alone. -/
theorem claim10_frame_witness :
    ∃ s', emit behNil 1 "x" [3] sAB =
        some (s', (sAB.onHandlers "x" ++ sAB.onceHandlers "x").map (fun x => (x, [3])), none) ∧
      s'.onHandlers = sAB.onHandlers ∧ s'.onceHandlers "x" = [] ∧
      (∀ k'', k'' ≠ "x" → s'.onceHandlers k'' = sAB.onceHandlers k'') :=
  claim10_frame behNil 0 "x" [3] sAB (fun _ _ => rfl) (fun _ _ => rfl) rfl rfl rfl

end Events

namespace Events

/-- C3: a handler registered through `on(k, h)` while an emit is in progress
is only queued (conjunct 1); a handler registered nowhere at the start of an
emission is never invoked during it — in particular one that is merely queued
during that emission (conjunct 2); once a queued registration survives to the
end of a top-level emission that resolves, the handler is in the persistent
registry for its key (conjunct 3); and the next emission of that key that
resolves invokes every persistent handler, with the emission's argument list
(conjunct 4). -/
theorem claim3_deferred_on (beh : Behavior) :
    (∀ (s : St) (k : Key) (g : HandlerId), s.isEmitting = true →
      «on» k g s = { s with toRegisterOn := s.toRegisterOn ++ [(k, g)] }) ∧
    (∀ (n : Nat) (k : Key) (a : Args) (s s' : St) (t : Trace) (r : Option Reason)
      (g : HandlerId), NotReg g s → emit beh n k a s = some (s', t, r) →
      ∀ a', (g, a') ∉ t) ∧
    (∀ (n : Nat) (k' : Key) (a : Args) (s s' : St) (t : Trace) (k : Key)
      (g : HandlerId), s.isEmitting = false → (k, g) ∈ s.toRegisterOn →
      g ∉ s.toRemove → ActsNoRemove beh g →
      emit beh n k' a s = some (s', t, none) → g ∈ s'.onHandlers k) ∧
    (∀ (n : Nat) (k : Key) (a : Args) (s s' : St) (t : Trace) (g : HandlerId),
      g ∈ s.onHandlers k → emit beh n k a s = some (s', t, none) → (g, a) ∈ t) := by
  refine ⟨fun s k g hs => on_emitting k g s hs, ?_, ?_, ?_⟩
  · intro n k a s s' t r g hn h a'
    exact emit_noinv beh n k a s s' t r g hn h a'
  · intro n k' a s s' t k g hs hq hr hA h
    exact emit_flush_mem beh n k' a s s' t k g hs hq hr hA h
  · intro n k a s s' t g hg h
    exact emit_invoked beh n k a s s' t g hg h

/-- C3 witness: `on("x", 7)` during dispatch only queues; handler `7`
(registered nowhere) is not invoked by an emission of `"x"`; a queued
registration `("x", 7)` is flushed into the persistent registry by a
resolving top-level emission; and a registered persistent handler `3` is
invoked with the next emission's argument list. -/
theorem claim3_deferred_on_witness :
    («on» "x" 7 sEm = { sEm with toRegisterOn := sEm.toRegisterOn ++ [("x", 7)] }) ∧
    (∃ s' t, emit behNil 1 "x" [1] sOn3 = some (s', t, none) ∧ (7, [1]) ∉ t) ∧
    (∃ s' t, emit behNil 1 "y" [] sQ = some (s', t, none) ∧ 7 ∈ s'.onHandlers "x") ∧
    (∃ s' t, emit behNil 1 "x" [4] sOn3 = some (s', t, none) ∧ (3, [4]) ∈ t) := by
  have hC := claim3_deferred_on behNil
  have hne : NoEmitActs behNil := fun _ _ _ _ hm => absurd hm (List.not_mem_nil _)
  refine ⟨hC.1 sEm "x" 7 rfl, ?_, ?_, ?_⟩
  · obtain ⟨s', he, -⟩ := emit_simple behNil hne 0 "x" [1] sOn3 (fun _ _ => rfl) rfl
    refine ⟨s', _, he, ?_⟩
    refine hC.2.1 1 "x" [1] sOn3 s' _ none 7 ?_ he [1]
    intro k
    by_cases hk : k = "x" <;> simp [sOn3, emptySt, hk]
  · obtain ⟨s', he, -⟩ := emit_simple behNil hne 0 "y" [] sQ (fun _ _ => rfl) rfl
    refine ⟨s', _, he, ?_⟩
    exact hC.2.2.1 1 "y" [] sQ s' _ "x" 7 rfl (by decide) (by decide)
      (fun _ _ => List.not_mem_nil _) he
  · obtain ⟨s', he, -⟩ := emit_simple behNil hne 0 "x" [4] sOn3 (fun _ _ => rfl) rfl
    exact ⟨s', _, he, hC.2.2.2 1 "x" [4] sOn3 s' _ 3 (by decide) he⟩

/-- C4: while the dispatch flag is raised, `on`, `once` and `removeListener`
leave both registries unmodified (conjunct 1); an emission that resolves
restores the dispatch flag to its prior value (conjunct 2); a nested emission
(one started with the flag already raised) never flushes: the `toRegisterOn`
and `toRemove` queues are only appended to and `toRegisterOnce` is untouched
(conjunct 3); and an outermost emission that resolves flushes all three
deferral queues, leaving them empty (conjunct 4). -/
theorem claim4_mutation_deferral (beh : Behavior) :
    (∀ (s : St) (k : Key) (g : HandlerId), s.isEmitting = true →
      ((«on» k g s).onHandlers = s.onHandlers ∧ («on» k g s).onceHandlers = s.onceHandlers) ∧
      ((once k g s).onHandlers = s.onHandlers ∧ (once k g s).onceHandlers = s.onceHandlers) ∧
      ((removeListener g s).onHandlers = s.onHandlers ∧
        (removeListener g s).onceHandlers = s.onceHandlers)) ∧
    (∀ (n : Nat) (k : Key) (a : Args) (s s' : St) (t : Trace),
      emit beh n k a s = some (s', t, none) → s'.isEmitting = s.isEmitting) ∧
    (∀ (n : Nat) (k : Key) (a : Args) (s s' : St) (t : Trace) (r : Option Reason),
      s.isEmitting = true → emit beh n k a s = some (s', t, r) →
      (∃ l, s'.toRegisterOn = s.toRegisterOn ++ l) ∧
      s'.toRegisterOnce = s.toRegisterOnce ∧
      (∃ l, s'.toRemove = s.toRemove ++ l)) ∧
    (∀ (n : Nat) (k : Key) (a : Args) (s s' : St) (t : Trace),
      s.isEmitting = false → emit beh n k a s = some (s', t, none) →
      s'.toRegisterOn = [] ∧ s'.toRegisterOnce = [] ∧ s'.toRemove = []) := by
  refine ⟨?_, ?_, ?_, ?_⟩
  · intro s k g hs
    rw [on_emitting k g s hs, once_emitting k g s hs, remove_emitting g s hs]
    exact ⟨⟨rfl, rfl⟩, ⟨rfl, rfl⟩, ⟨rfl, rfl⟩⟩
  · intro n k a s s' t h
    exact emit_success_flag beh n k a s s' t h
  · intro n k a s s' t r hs h
    have hf := emit_frame beh n k a s s' t r hs h
    exact ⟨hf.2.2.2.1, hf.2.2.2.2.1, hf.2.2.2.2.2⟩
  · intro n k a s s' t hs h
    exact emit_success_queues beh n k a s s' t hs h

/-- C4 witness: the three operations during dispatch leave the registries of
the raised-flag empty bus unchanged; a resolving emission from a quiescent
bus restores the flag; a nested emission from a raised-flag bus leaves the
queues unflushed; and a resolving top-level emission from a bus with a queued
registration empties all three queues. -/
theorem claim4_mutation_deferral_witness :
    ((((«on» "x" 7 sEm).onHandlers = sEm.onHandlers ∧
        («on» "x" 7 sEm).onceHandlers = sEm.onceHandlers) ∧
      ((once "x" 7 sEm).onHandlers = sEm.onHandlers ∧
        (once "x" 7 sEm).onceHandlers = sEm.onceHandlers) ∧
      ((removeListener 7 sEm).onHandlers = sEm.onHandlers ∧
        (removeListener 7 sEm).onceHandlers = sEm.onceHandlers))) ∧
    (∃ s' t, emit behNil 1 "x" [2] sAB = some (s', t, none) ∧
      s'.isEmitting = sAB.isEmitting) ∧
    (∃ s' t, emit behNil 1 "x" [] sEm = some (s', t, none) ∧
      (∃ l, s'.toRegisterOn = sEm.toRegisterOn ++ l) ∧
      s'.toRegisterOnce = sEm.toRegisterOnce ∧
      (∃ l, s'.toRemove = sEm.toRemove ++ l)) ∧
    (∃ s' t, emit behNil 1 "y" [] sQ = some (s', t, none) ∧
      s'.toRegisterOn = [] ∧ s'.toRegisterOnce = [] ∧ s'.toRemove = []) := by
  have hC := claim4_mutation_deferral behNil
  have hne : NoEmitActs behNil := fun _ _ _ _ hm => absurd hm (List.not_mem_nil _)
  refine ⟨hC.1 sEm "x" 7 rfl, ?_, ?_, ?_⟩
  · obtain ⟨s', he, -⟩ := emit_simple behNil hne 0 "x" [2] sAB (fun _ _ => rfl) rfl
    exact ⟨s', _, he, hC.2.1 1 "x" [2] sAB s' _ he⟩
  · obtain ⟨s', he, -⟩ := emit_simple behNil hne 0 "x" [] sEm (fun _ _ => rfl) rfl
    exact ⟨s', _, he, hC.2.2.1 1 "x" [] sEm s' _ none rfl he⟩
  · obtain ⟨s', he, -⟩ := emit_simple behNil hne 0 "y" [] sQ (fun _ _ => rfl) rfl
    exact ⟨s', _, he, hC.2.2.2 1 "y" [] sQ s' _ rfl he⟩

/-- C5: if an emission's promise rejects with reason `r`, the rejection
originates from an invoked handler whose own promise rejected with that very
reason (conjunct 1 — the rejection propagates unchanged to the caller of
`emit`); and when no handler issues a nested emit, an emission whose
persistent-then-one-shot dispatch sequence splits as `pre ++ g :: post`, with
every handler of `pre` resolving and `g` rejecting with `r`, rejects with
exactly `r` after invoking exactly `pre` and then `g` — the handlers of
`post`, later in the sequence, are not invoked (conjunct 2). -/
theorem claim5_rejection (beh : Behavior) :
    (∀ (n : Nat) (k : Key) (a : Args) (s s' : St) (t : Trace) (r : Reason),
      emit beh n k a s = some (s', t, some r) →
      ∃ g a', (g, a') ∈ t ∧ beh.rejectsWith g a' = some r) ∧
    (∀ (n : Nat) (k : Key) (a : Args) (s : St) (pre post : List HandlerId)
      (g : HandlerId) (r : Reason), NoEmitActs beh →
      s.onHandlers k ++ s.onceHandlers k = pre ++ g :: post →
      (∀ x ∈ pre, beh.rejectsWith x a = none) → beh.rejectsWith g a = some r →
      ∃ s', emit beh (n + 1) k a s =
        some (s', (pre ++ [g]).map (fun x => (x, a)), some r)) := by
  refine ⟨?_, ?_⟩
  · intro n k a s s' t r h
    exact emit_origin beh n k a s s' t r h
  · intro n k a s pre post g r hne hsplit hpre hrej
    exact emit_simple_reject beh hne n k a s pre post g r hsplit hpre hrej

/-- C5 witness: persistent `[0]` and one-shot `[1, 2]` on `"x"`, with handler
`1` rejecting with reason `9`: `emit("x")` invokes `0` then `1`, rejects with
`9`, does not invoke `2`, and the rejection originates from handler `1`. -/
theorem claim5_rejection_witness :
    (∃ s', emit behC5 1 "x" [] sC5 =
      some (s', ([0] ++ [1]).map (fun x => (x, ([] : Args))), some 9)) ∧
    (∃ g a', (g, a') ∈ (([0] ++ [1]).map (fun x => (x, ([] : Args)))) ∧
      behC5.rejectsWith g a' = some 9) := by
  have hC := claim5_rejection behC5
  have hne : NoEmitActs behC5 := fun _ _ _ _ hm => absurd hm (List.not_mem_nil _)
  obtain ⟨s', he⟩ := hC.2 0 "x" [] sC5 [0] [2] 1 9 hne (by decide) (by decide) (by decide)
  exact ⟨⟨s', he⟩, hC.1 1 "x" [] sC5 s' _ 9 he⟩

/-- C7: `removeListener` during dispatch only queues the removal, leaving the
state (and in particular any sequence being iterated) otherwise untouched
(conjunct 1); once a queued removal is flushed by a resolving top-level
emission, the handler is absent from every persistent and one-shot list of
every key (conjunct 2); a handler registered nowhere is never invoked by any
emission (conjunct 3); and removing a handler that is not registered anywhere
leaves both registries unchanged (conjunct 4). -/
theorem claim7_removeListener (beh : Behavior) :
    (∀ (s : St) (g : HandlerId), s.isEmitting = true →
      removeListener g s = { s with toRemove := s.toRemove ++ [g] }) ∧
    (∀ (n : Nat) (k : Key) (a : Args) (s s' : St) (t : Trace) (g : HandlerId),
      s.isEmitting = false → g ∈ s.toRemove →
      emit beh n k a s = some (s', t, none) →
      ∀ k', g ∉ s'.onHandlers k' ∧ g ∉ s'.onceHandlers k') ∧
    (∀ (n : Nat) (k : Key) (a : Args) (s s' : St) (t : Trace) (r : Option Reason)
      (g : HandlerId), NotReg g s → emit beh n k a s = some (s', t, r) →
      ∀ a', (g, a') ∉ t) ∧
    (∀ (s : St) (g : HandlerId), s.isEmitting = false →
      (∀ k, g ∉ s.onHandlers k ∧ g ∉ s.onceHandlers k) →
      (removeListener g s).onHandlers = s.onHandlers ∧
      (removeListener g s).onceHandlers = s.onceHandlers) := by
  refine ⟨fun s g hs => remove_emitting g s hs, ?_, ?_, ?_⟩
  · intro n k a s s' t g hs hg h
    exact emit_flush_removed beh n k a s s' t g hs hg h
  · intro n k a s s' t r g hn h a'
    exact emit_noinv beh n k a s s' t r g hn h a'
  · intro s g hs habs
    rw [remove_quiet g s hs]
    constructor
    · funext k
      dsimp only
      apply List.filter_eq_self.mpr
      intro x hx
      have hxg : x ≠ g := fun hh => (habs k).1 (hh ▸ hx)
      simpa using hxg
    · funext k
      dsimp only
      apply List.filter_eq_self.mpr
      intro x hx
      have hxg : x ≠ g := fun hh => (habs k).2 (hh ▸ hx)
      simpa using hxg

/-- C7 witness: `removeListener(3)` during dispatch only queues; a queued
removal of handler `3` is applied by a resolving top-level emission, after
which `3` is absent from both registries of `"x"`; the unregistered handler
`9` is never invoked; and removing the unregistered handler `9` leaves the
registries unchanged. -/
theorem claim7_removeListener_witness :
    (removeListener 3 sEm = { sEm with toRemove := sEm.toRemove ++ [3] }) ∧
    (∃ s' t, emit behNil 1 "x" [] sRem = some (s', t, none) ∧
      3 ∉ s'.onHandlers "x" ∧ 3 ∉ s'.onceHandlers "x") ∧
    (∃ s' t, emit behNil 1 "x" [6] sOn3 = some (s', t, none) ∧ (9, [6]) ∉ t) ∧
    ((removeListener 9 sOn3).onHandlers = sOn3.onHandlers ∧
      (removeListener 9 sOn3).onceHandlers = sOn3.onceHandlers) := by
  have hC := claim7_removeListener behNil
  have hne : NoEmitActs behNil := fun _ _ _ _ hm => absurd hm (List.not_mem_nil _)
  refine ⟨hC.1 sEm 3 rfl, ?_, ?_, ?_⟩
  · obtain ⟨s', he, -⟩ := emit_simple behNil hne 0 "x" [] sRem (fun _ _ => rfl) rfl
    exact ⟨s', _, he, hC.2.1 1 "x" [] sRem s' _ 3 rfl (by decide) he "x"⟩
  · obtain ⟨s', he, -⟩ := emit_simple behNil hne 0 "x" [6] sOn3 (fun _ _ => rfl) rfl
    refine ⟨s', _, he, ?_⟩
    refine hC.2.2.1 1 "x" [6] sOn3 s' _ none 9 ?_ he [6]
    intro k
    by_cases hk : k = "x" <;> simp [sOn3, emptySt, hk]
  · refine hC.2.2.2 sOn3 9 rfl ?_
    intro k
    by_cases hk : k = "x" <;> simp [sOn3, emptySt, hk]

end Events

namespace Events

/-- C6 counterexample: persistent handlers `[3, 4]` on `"x"`; handler `3`
queues `on("y", 9)` and handler `4` then rejects, so the first emission
rejects with the mutation still queued.  A subsequent `emit("z")` completes
without error (it resolves), yet the queued addition is still not flushed:
`onHandlers "y"` stays empty and the `toRegisterOn` queue still holds
`("y", 9)` — contradicting "the first subsequent emit whose handlers all
resolve flushes those queued mutations into the registries". -/
theorem claim6_counterexample :
    emitRes behC 1 "x" [0] sC = some (some 7) ∧
    ((emitSt behC 1 "x" [0] sC).map (fun s1 => s1.toRegisterOn)) =
      some [("y", 9)] ∧
    ((emitSt behC 1 "x" [0] sC).bind (fun s1 =>
      (emit behC 1 "z" [] s1).map
        (fun x => (x.2.2, x.1.onHandlers "y", x.1.toRegisterOn)))) =
      some (none, [], [("y", 9)]) := by
  refine ⟨by decide, by decide, by decide⟩

/-- C6 (amended): if a handler rejects during a top-level emit, the dispatch
flag is left raised and the additions and removals queued earlier in that
cycle are never flushed: every subsequent emission — rejecting or resolving —
leaves the persistent registry untouched, leaves `toRegisterOnce` untouched,
and only appends to `toRegisterOn` and `toRemove` (the `Frame` relation), so
no future emission ever applies the queued mutations to the registries. -/
theorem claim6_never_flushed (beh : Behavior) :
    ∀ (n : Nat) (k : Key) (a : Args) (s s' : St) (t : Trace) (r : Reason)
      (n' : Nat) (k' : Key) (a' : Args) (s'' : St) (t' : Trace)
      (res : Option Reason),
      s.isEmitting = false → emit beh n k a s = some (s', t, some r) →
      emit beh n' k' a' s' = some (s'', t', res) →
      s'.isEmitting = true ∧ Frame s' s'' := by
  intro n k a s s' t r n' k' a' s'' t' res _ h1 h2
  have hfl : s'.isEmitting = true := emit_reject_flag beh n k a s s' t r h1
  exact ⟨hfl, emit_frame beh n' k' a' s' s'' t' res hfl h2⟩

/-- C6 witness: after `emit("x", [0])` on `behC`/`sC` rejects with `("y", 9)`
queued, a later `emit("z")` resolves but leaves the dispatch flag raised and
the queue unflushed. -/
theorem claim6_never_flushed_witness :
    ∃ s1 s2, emit behC 1 "x" [0] sC =
        some (s1, ([3] ++ [4]).map (fun x => (x, [0])), some 7) ∧
      emit behC 1 "z" [] s1 = some (s2, [], none) ∧
      s1.isEmitting = true ∧ Frame s1 s2 := by
  have hne : NoEmitActs behC := by
    intro h a k as hm
    by_cases hc : h = 3 ∧ a = [0] <;> simp [behC, hc] at hm
  obtain ⟨s1, he1⟩ := emit_simple_reject behC hne 0 "x" [0] sC [3] [] 4 7
    (by decide) (by decide) (by decide)
  have hfr : Frame ({ sC with isEmitting := true } : St) s1 :=
    emit_reject_partial behC 1 "x" [0] sC s1 _ 7 he1
  have honz : s1.onHandlers "z" = [] := by rw [hfr.2.1]; decide
  have honcez : s1.onceHandlers "z" = [] := by
    rcases hfr.2.2.1 "z" with hh | hh
    · rw [hh]; decide
    · exact hh
  have hqe1 : s1.toRegisterOnce = [] := by rw [hfr.2.2.2.2.1]; decide
  have hok1 : ∀ x ∈ s1.onHandlers "z" ++ s1.onceHandlers "z",
      behC.rejectsWith x [] = none := by
    intro x hx
    rw [honz, honcez] at hx
    exact absurd hx (by simp)
  obtain ⟨s2, he2, -⟩ := emit_simple behC hne 0 "z" [] s1 hok1 hqe1
  rw [honz, honcez] at he2
  simp only [List.nil_append, List.map_nil] at he2
  have hmain := claim6_never_flushed behC 1 "x" [0] sC s1 _ 7 1 "z" [] s2 [] none
    rfl he1 he2
  exact ⟨s1, s2, he1, he2, hmain.1, hmain.2⟩

/-- C8: the promise returned by `waitFor` settles only by resolving — a
rejecting emission's reason always originates from a handler other than the
resolver handler created by `waitFor` (conjunct 1); and when `waitFor(K)` is
called while not dispatching, the next emission of `K` whose handlers all
resolve (and hence reaches and dispatches the one-shot pass) resolves the
promise with exactly that emission's argument list (conjunct 2; handlers are
assumed not to issue nested emits). -/
theorem claim8_waitFor (beh : Behavior) (w : HandlerId) :
    (∀ (n : Nat) (k : Key) (a : Args) (s s' : St) (t : Trace) (r : Reason),
      Resolver beh w → emit beh n k a s = some (s', t, some r) →
      ∃ g a', (g, a') ∈ t ∧ beh.rejectsWith g a' = some r ∧ g ≠ w) ∧
    (∀ (n : Nat) (k : Key) (a : Args) (s : St), Resolver beh w →
      NoEmitActs beh → s.isEmitting = false → s.toRegisterOnce = [] →
      (∀ x ∈ s.onHandlers k ++ s.onceHandlers k, beh.rejectsWith x a = none) →
      ∃ s' t, emit beh (n + 1) k a (waitFor w k s) = some (s', t, none) ∧
        waitForResult w t = some a) := by
  refine ⟨?_, ?_⟩
  · intro n k a s s' t r hres h
    obtain ⟨g, a', hg, hgr⟩ := emit_origin beh n k a s s' t r h
    refine ⟨g, a', hg, hgr, ?_⟩
    intro hgw
    rw [hgw, hres.2 a'] at hgr
    exact absurd hgr (by simp)
  · intro n k a s hres hne hs hqe hok
    have hwf : waitFor w k s =
        { s with onceHandlers := setList s.onceHandlers k (s.onceHandlers k ++ [w]) } := by
      unfold waitFor
      exact once_quiet k w s hs
    have hself : setList s.onceHandlers k (s.onceHandlers k ++ [w]) k =
        s.onceHandlers k ++ [w] := setList_self _ _ _
    have hok' : ∀ x ∈ ({ s with onceHandlers := setList s.onceHandlers k (s.onceHandlers k ++ [w]) } : St).onHandlers k ++
        ({ s with onceHandlers := setList s.onceHandlers k (s.onceHandlers k ++ [w]) } : St).onceHandlers k,
        beh.rejectsWith x a = none := by
      intro x hx
      dsimp only at hx
      rw [hself] at hx
      rcases List.mem_append.mp hx with hl | hr
      · exact hok x (List.mem_append_left _ hl)
      · rcases List.mem_append.mp hr with hrl | hrr
        · exact hok x (List.mem_append_right _ hrl)
        · rw [List.mem_singleton.mp hrr]
          exact hres.2 a
    obtain ⟨s', he, -⟩ := emit_simple beh hne n k a
      ({ s with onceHandlers := setList s.onceHandlers k (s.onceHandlers k ++ [w]) } : St)
      hok' hqe
    refine ⟨s', _, by rw [hwf]; exact he, ?_⟩
    apply waitForResult_map
    refine List.mem_append_right _ ?_
    rw [show ({ s with onceHandlers := setList s.onceHandlers k (s.onceHandlers k ++ [w]) } : St).onceHandlers k = s.onceHandlers k ++ [w] from hself]
    exact List.mem_append_right _ (List.mem_singleton.mpr rfl)

/-- C8 witness: `waitFor(9, "x")` on `sAB` (not dispatching) followed by
`emit("x", [4])` resolves the wait with exactly `[4]`; and a rejecting
emission on `behC5` has its reason originating from handler `1`, not from
the (never-rejecting) resolver handler `42`. -/
theorem claim8_waitFor_witness :
    (∃ s' t, emit behNil 1 "x" [4] (waitFor 9 "x" sAB) = some (s', t, none) ∧
      waitForResult 9 t = some [4]) ∧
    (∃ g a', (g, a') ∈ (([0] ++ [1]).map (fun x => (x, ([] : Args)))) ∧
      behC5.rejectsWith g a' = some 9 ∧ g ≠ 42) := by
  have hne : NoEmitActs behNil := fun _ _ _ _ hm => absurd hm (List.not_mem_nil _)
  have hne5 : NoEmitActs behC5 := fun _ _ _ _ hm => absurd hm (List.not_mem_nil _)
  refine ⟨?_, ?_⟩
  · exact (claim8_waitFor behNil 9).2 0 "x" [4] sAB ⟨fun _ => rfl, fun _ => rfl⟩
      hne rfl rfl (fun _ _ => rfl)
  · obtain ⟨s', he⟩ := emit_simple_reject behC5 hne5 0 "x" [] sC5 [0] [2] 1 9
      (by decide) (by decide) (by decide)
    exact (claim8_waitFor behC5 42).1 1 "x" [] sC5 s' _ 9
      ⟨fun _ => rfl, fun _ => rfl⟩ he

/-- C9: after a top-level emission (started with the dispatch flag false)
rejects, the flag is left raised; in every state reachable from there through
any sequence of bus operations the flag is still raised and the deferral
queues are never flushed (`Frame` holds along the reflexive-transitive
closure of the API steps); and in any raised-flag state, `on`, `once` and
`removeListener` only append to a deferral queue instead of mutating a
registry. -/
theorem claim9_stuck_flag (beh : Behavior) :
    ∀ (n : Nat) (k : Key) (a : Args) (s s' : St) (t : Trace) (r : Reason),
      s.isEmitting = false → emit beh n k a s = some (s', t, some r) →
      s'.isEmitting = true ∧
      (∀ s'', Relation.ReflTransGen (ApiStep beh) s' s'' → Frame s' s'') ∧
      (∀ (s'' : St) (k' : Key) (g : HandlerId), s''.isEmitting = true →
        «on» k' g s'' = { s'' with toRegisterOn := s''.toRegisterOn ++ [(k', g)] } ∧
        once k' g s'' = { s'' with toRegisterOn := s''.toRegisterOn ++ [(k', g)] } ∧
        removeListener g s'' = { s'' with toRemove := s''.toRemove ++ [g] }) := by
  intro n k a s s' t r _ h
  have hfl : s'.isEmitting = true := emit_reject_flag beh n k a s s' t r h
  refine ⟨hfl, fun s'' hreach => reach_frame beh hfl hreach, ?_⟩
  intro s'' k' g hs''
  exact ⟨on_emitting k' g s'' hs'', once_emitting k' g s'' hs'',
    remove_emitting g s'' hs''⟩

/-- C9 witness: after the rejecting `emit("x", [0])` on `behC`/`sC`, the flag
is raised, one later `on("q", 5)` step keeps the `Frame` relation (flag still
raised, queues only appended), and in a raised-flag state the operations only
queue. -/
theorem claim9_stuck_flag_witness :
    ∃ s1, emit behC 1 "x" [0] sC =
        some (s1, ([3] ++ [4]).map (fun x => (x, [0])), some 7) ∧
      s1.isEmitting = true ∧ Frame s1 («on» "q" 5 s1) ∧
      «on» "q" 5 sEm = { sEm with toRegisterOn := sEm.toRegisterOn ++ [("q", 5)] } := by
  have hne : NoEmitActs behC := by
    intro h a k as hm
    by_cases hc : h = 3 ∧ a = [0] <;> simp [behC, hc] at hm
  obtain ⟨s1, he1⟩ := emit_simple_reject behC hne 0 "x" [0] sC [3] [] 4 7
    (by decide) (by decide) (by decide)
  have hmain := claim9_stuck_flag behC 1 "x" [0] sC s1 _ 7 rfl he1
  refine ⟨s1, he1, hmain.1, ?_, (hmain.2.2 sEm "q" 5 rfl).1⟩
  exact hmain.2.1 («on» "q" 5 s1)
    (Relation.ReflTransGen.single (ApiStep.onStep "q" 5 s1))

end Events
